import Mathlib

/-!
Shallow embedding of the 6-seat Texas Hold'em hand engine of this repository:
`card.ts` (Card, Deck), `player.ts` (Player), `poker-game.ts` (PokerGame).

Conventions of the embedding:
* TypeScript `number` chip amounts are embedded as `Int` (all chip arithmetic in
  the source is integer arithmetic on the caller-supplied integers).
* Mutation is embedded as explicit state passing; a thrown exception is `none`
  of an `Option` result.
* `Deck.shuffle` draws from an ambient random generator, so operations that
  reset the deck take the post-shuffle card order as an explicit parameter.
* `uuidv4` hand ids and the cosmetic player display names carry no game logic
  and are omitted from the state.
* The in-memory action log stores human-readable strings built by interpolating
  seat names, amounts and cards; each call site is embedded as a structured
  `LogEntry` constructor carrying exactly the interpolated data.
-/

/-- The four suits of `card.ts` (enum `Suit`), in declaration order. -/
inductive Suit
  | hearts
  | diamonds
  | clubs
  | spades
deriving DecidableEq, Repr

/-- The thirteen ranks of `card.ts` (enum `Rank`), in declaration order. -/
inductive Rank
  | two | three | four | five | six | seven | eight
  | nine | ten | jack | queen | king | ace
deriving DecidableEq, Repr

/-- `card.ts` class `Card`: a rank and a suit. -/
structure Card where
  rank : Rank
  suit : Suit
deriving DecidableEq, Repr

/-- The suits in `Object.values(Suit)` order. -/
def allSuits : List Suit := [.hearts, .diamonds, .clubs, .spades]

/-- The ranks in `Object.values(Rank)` order. -/
def allRanks : List Rank :=
  [.two, .three, .four, .five, .six, .seven, .eight,
   .nine, .ten, .jack, .queen, .king, .ace]

/-- `Deck.reset` generation order before the shuffle: for each suit, for each
rank, push `Card(rank, suit)`. -/
def freshDeck : List Card :=
  allSuits.bind fun s => allRanks.map fun r => { rank := r, suit := s }

/-- `Deck.deal`: `this.cards.pop()` removes and returns the LAST element of the
card array; dealing from an empty deck throws (`none`). Returns the dealt card
and the remaining deck. -/
def dealCard (cards : List Card) : Option (Card × List Card) :=
  match cards.getLast? with
  | none => none
  | some c => some (c, cards.dropLast)

/-- `player.ts` enum `PlayerAction`. -/
inductive PlayerAction
  | fold
  | check
  | call
  | bet
  | raise
  | all_in
deriving DecidableEq, Repr

/-- `player.ts` class `Player`: the per-seat mutable state. The cosmetic
`id`/`name` fields are omitted (they never influence the engine logic). -/
structure Player where
  holeCards : List Card := []
  currentBet : Int := 0
  totalBetThisHand : Int := 0
  hasFolded : Bool := false
  isAllIn : Bool := false
  hasActed : Bool := false
  stack : Int := 0
deriving DecidableEq, Repr

/-- Stand-in for a JavaScript `undefined` array read (`this.players[i]` out of
range): every flag false, stack 0, so `canAct` is false, matching the
`!player` guards in the source. -/
def emptyPlayer : Player := {}

/-- `Player.reset()`: clear all per-hand fields; the stack persists. -/
def Player.reset (p : Player) : Player :=
  { p with holeCards := [], currentBet := 0, totalBetThisHand := 0,
           hasFolded := false, isAllIn := false, hasActed := false }

/-- `Player.bet(amount)`: commit `min(amount, stack)` chips, move them from the
stack into `currentBet`/`totalBetThisHand`, mark acted, flag all-in when the
stack hits 0. Returns the updated player and the actually committed amount. -/
def Player.bet (p : Player) (amount : Int) : Player × Int :=
  let actualAmount := min amount p.stack
  let p' : Player :=
    { p with stack := p.stack - actualAmount,
             currentBet := p.currentBet + actualAmount,
             totalBetThisHand := p.totalBetThisHand + actualAmount,
             hasActed := true }
  let p' := if p'.stack = 0 then { p' with isAllIn := true } else p'
  (p', actualAmount)

/-- `Player.fold()`. -/
def Player.fold (p : Player) : Player :=
  { p with hasFolded := true, hasActed := true }

/-- `Player.check()`. -/
def Player.check (p : Player) : Player :=
  { p with hasActed := true }

/-- `Player.call(amountToCall)`: `bet(min(amountToCall, stack))`. -/
def Player.call (p : Player) (amountToCall : Int) : Player × Int :=
  p.bet (min amountToCall p.stack)

/-- `Player.allIn()`: bet the whole stack, returning the pre-bet stack. -/
def Player.allIn (p : Player) : Player × Int :=
  let amount := p.stack
  ((p.bet amount).1, amount)

/-- `Player.canAct()`: not folded, not all-in, chips remaining. -/
def Player.canAct (p : Player) : Bool :=
  !p.hasFolded && !p.isAllIn && decide (0 < p.stack)

/-- `poker-game.ts` enum `GamePhase`. -/
inductive GamePhase
  | setup
  | preflop
  | flop
  | turn
  | river
  | showdown
  | finished
deriving DecidableEq, Repr

/-- One entry of the in-memory `actionLog`; each constructor corresponds to one
`logAction(...)` call site, carrying the data interpolated into the string. -/
inductive LogEntry
  | newHandStarted
  | dealerIs (seat : Nat)
  | smallBlindPost (seat : Nat) (amount : Int)
  | bigBlindPost (seat : Nat) (amount : Int)
  | preflopActionTo (seat : Nat)
  | folds (seat : Nat)
  | checks (seat : Nat)
  | calls (seat : Nat) (amount : Int)
  | bets (seat : Nat) (amount : Int)
  | raisesTo (seat : Nat) (amount : Int)
  | allInFor (seat : Nat) (amount : Int)
  | actionTo (seat : Nat)
  | flopDealt (cards : List Card)
  | turnDealt (card : Card)
  | riverDealt (card : Card)
  | showdownReached
  | winsNoShowdown (seat : Nat) (amount : Int)
  | winsBestHand (seat : Nat) (amount : Int)
  | handComplete
deriving DecidableEq, Repr

/-- The compact action token stored in `gameActions` (`shortAction` strings
`f`, `x`, `c`, `b<amt>`, `r<amt>`, `allin`, and the community-card reveals). -/
inductive ActionToken
  | f
  | x
  | c
  | b (amount : Int)
  | r (amount : Int)
  | allin
  | reveal (cards : List Card)
deriving DecidableEq, Repr

/-- `types.ts` interface `GameAction` (one hand-history entry). -/
structure GameAction where
  playerId : Int
  action : ActionToken
  amount : Option Int
  phase : GamePhase
deriving DecidableEq, Repr

/-- `poker-game.ts` class `PokerGame`: the whole engine state. -/
structure PokerGame where
  deck : List Card
  players : List Player
  communityCards : List Card
  pot : Int
  currentBet : Int
  activePlayerIndex : Nat
  dealerIndex : Nat
  smallBlindIndex : Nat
  bigBlindIndex : Nat
  phase : GamePhase
  actionLog : List LogEntry
  gameActions : List GameAction
  isFirstAction : Bool
  initialStacks : List Int
deriving DecidableEq, Repr

/-- `SMALL_BLIND`. -/
def SMALL_BLIND : Int := 20

/-- `BIG_BLIND`. -/
def BIG_BLIND : Int := 40

/-- The `PokerGame` constructor: a fresh (reset) deck and six players with
1000 chips each; `initialStacks` starts empty. -/
def initialGame : PokerGame :=
  { deck := freshDeck
    players := List.replicate 6 { emptyPlayer with stack := 1000 }
    communityCards := []
    pot := 0
    currentBet := 0
    activePlayerIndex := 0
    dealerIndex := 0
    smallBlindIndex := 0
    bigBlindIndex := 0
    phase := .setup
    actionLog := []
    gameActions := []
    isFirstAction := true
    initialStacks := [] }

/-- `setPlayerStacks(stacks)`: throws (`none`) unless exactly 6 values; stores
them as `initialStacks` and writes each seat's stack. -/
def setPlayerStacks (g : PokerGame) (newStacks : List Int) : Option PokerGame :=
  if newStacks.length ≠ 6 then none
  else some { g with initialStacks := newStacks,
                     players := List.zipWith (fun (p : Player) (s : Int) => { p with stack := s }) g.players newStacks }

/-- `findNextPlayerWithChips(fromIndex)`: starting one seat past `fromIndex`
(wrapping mod the table size), return the first seat whose stack is nonzero;
after a full fruitless cycle the source throws "No players with chips
remaining" (`none`). The source's while-loop with an `attempts` counter is
rendered as a search over the offsets `0..total-1` from the start seat. -/
def findNextPlayerWithChips (players : List Player) (fromIndex : Nat) : Option Nat :=
  let total := players.length
  let start := (fromIndex + 1) % total
  match (List.range total).find?
      (fun k => !((players.getD ((start + k) % total) emptyPlayer).stack = 0 : Bool)) with
  | some k => some ((start + k) % total)
  | none => none

/-- `resetForNewHand()`: reset deck (to the supplied shuffled order), clear all
per-hand engine state, reset every player, then rotate dealer/blind seats to
the next seats with chips (throwing, i.e. `none`, when no seat has chips). -/
def resetForNewHand (g : PokerGame) (shuffledDeck : List Card) : Option PokerGame :=
  let g := { g with deck := shuffledDeck, communityCards := [], pot := 0, currentBet := 0,
                    actionLog := [], gameActions := [], phase := .setup, isFirstAction := true,
                    players := g.players.map Player.reset }
  match findNextPlayerWithChips g.players g.dealerIndex with
  | none => none
  | some d =>
    match findNextPlayerWithChips g.players d with
    | none => none
    | some sb =>
      match findNextPlayerWithChips g.players sb with
      | none => none
      | some bb =>
        some { g with dealerIndex := d, smallBlindIndex := sb, bigBlindIndex := bb }

/-- `postBlinds()`: the small-blind seat bets `SMALL_BLIND`, the big-blind seat
bets `BIG_BLIND` (each capped by `Player.bet` at the seat's stack), both
committed amounts are added to the pot, and `currentBet` becomes `BIG_BLIND`. -/
def postBlinds (g : PokerGame) : PokerGame :=
  let sbP := g.players.getD g.smallBlindIndex emptyPlayer
  let (sbP', sbAmount) := sbP.bet SMALL_BLIND
  let g := { g with players := g.players.set g.smallBlindIndex sbP', pot := g.pot + sbAmount }
  let bbP := g.players.getD g.bigBlindIndex emptyPlayer
  let (bbP', bbAmount) := bbP.bet BIG_BLIND
  { g with players := g.players.set g.bigBlindIndex bbP', pot := g.pot + bbAmount,
           currentBet := BIG_BLIND }

/-- The body of one iteration of the `dealHoleCards` loops: deal one card from
the deck to seat `(dealerIndex + 1 + i) % 6`. -/
def dealOneHole (g : PokerGame) (i : Nat) : Option PokerGame :=
  match dealCard g.deck with
  | none => none
  | some (card, deck') =>
    let idx := (g.dealerIndex + 1 + i) % 6
    let p := g.players.getD idx emptyPlayer
    some { g with deck := deck',
                  players := g.players.set idx { p with holeCards := p.holeCards ++ [card] } }

/-- The nested `dealHoleCards` loops, iterated over the list of seat offsets. -/
def dealHoleCardsAux : PokerGame → List Nat → Option PokerGame
  | g, [] => some g
  | g, i :: rest =>
    match dealOneHole g i with
    | none => none
    | some g' => dealHoleCardsAux g' rest

/-- `dealHoleCards()`: two rounds over seat offsets 0..5 (all first cards
before any second card), dealing to `(dealerIndex + 1 + i) % 6`. -/
def dealHoleCards (g : PokerGame) : Option PokerGame :=
  dealHoleCardsAux g ((List.range 2).bind fun _ => List.range 6)

/-- `findNextActivePlayer()`: starting at the current `activePlayerIndex`, scan
up to 6 seats (wrapping) for one that `canAct`; the source loop leaves the
index unchanged (back at its start) when nobody can act. -/
def findNextActivePlayer (g : PokerGame) : PokerGame :=
  match (List.range 6).find?
      (fun k => (g.players.getD ((g.activePlayerIndex + k) % 6) emptyPlayer).canAct) with
  | some k => { g with activePlayerIndex := (g.activePlayerIndex + k) % 6 }
  | none => g

/-- `setActivePlayer()`: preflop the scan starts left of the big blind,
post-flop left of the dealer. -/
def setActivePlayer (g : PokerGame) : PokerGame :=
  let start := if g.phase = .preflop then (g.bigBlindIndex + 1) % 6 else (g.dealerIndex + 1) % 6
  findNextActivePlayer { g with activePlayerIndex := start }

/-- `moveToNextPlayer()`. -/
def moveToNextPlayer (g : PokerGame) : PokerGame :=
  findNextActivePlayer { g with activePlayerIndex := (g.activePlayerIndex + 1) % 6 }

/-- `startNewHand()`: reset, post blinds, deal hole cards, enter PREFLOP, pick
the first active seat, and write the five opening log lines. -/
def startNewHand (g : PokerGame) (shuffledDeck : List Card) : Option PokerGame :=
  match resetForNewHand g shuffledDeck with
  | none => none
  | some g =>
    let g := postBlinds g
    match dealHoleCards g with
    | none => none
    | some g =>
      let g := { g with phase := .preflop }
      let g := setActivePlayer g
      some { g with actionLog := g.actionLog ++
              [.newHandStarted, .dealerIs g.dealerIndex,
               .smallBlindPost g.smallBlindIndex SMALL_BLIND,
               .bigBlindPost g.bigBlindIndex BIG_BLIND,
               .preflopActionTo g.activePlayerIndex] }

/-- `isBettingRoundComplete()`: the round is over when at most one non-folded
seat remains, or at most one non-folded seat still has chips and is not all-in,
or every non-folded seat has acted and has matched the current bet (or is
all-in / broke). -/
def isBettingRoundComplete (g : PokerGame) : Bool :=
  let activePlayers := g.players.filter fun p => !p.hasFolded
  if activePlayers.length ≤ 1 then true
  else
    let playersWithChips := activePlayers.filter fun p => decide (0 < p.stack) && !p.isAllIn
    if playersWithChips.length ≤ 1 then true
    else
      (activePlayers.all fun p => p.hasActed) &&
      (activePlayers.all fun p =>
        decide (p.currentBet = g.currentBet) || p.isAllIn || decide (p.stack = 0))

/-- Index of the first list element satisfying the predicate. `activePlayers[0]`
in the source is the first non-folded player of the (aliased) `players` array;
this function locates it so the in-place `winner.stack` mutation can be
rendered as a positional update. -/
def firstIdxWhere (q : Player → Bool) : List Player → Option Nat
  | [] => none
  | p :: rest => if q p then some 0 else (firstIdxWhere q rest).map (· + 1)

/-- `processHandCompletion()`: the FIRST non-folded seat (`activePlayers[0]`)
receives the whole pot — the hole and community cards are never consulted and
the pot field is not zeroed. With zero non-folded seats the source reads
`.stack` of `undefined` and throws (`none`). -/
def processHandCompletion (g : PokerGame) : Option PokerGame :=
  let activeCount := (g.players.filter fun p => !p.hasFolded).length
  match firstIdxWhere (fun p => !p.hasFolded) g.players with
  | none => none
  | some w =>
    let winner := g.players.getD w emptyPlayer
    let entry := if activeCount = 1 then LogEntry.winsNoShowdown w g.pot
                 else LogEntry.winsBestHand w g.pot
    some { g with players := g.players.set w { winner with stack := winner.stack + g.pot },
                  phase := .finished,
                  actionLog := g.actionLog ++ [entry, .handComplete] }

/-- `processShowdown()`: log the showdown banner, then settle. -/
def processShowdown (g : PokerGame) : Option PokerGame :=
  processHandCompletion { g with actionLog := g.actionLog ++ [.showdownReached] }

/-- `dealFlop()`: burn one card, deal three community cards, log and record the
three-card reveal token. -/
def dealFlop (g : PokerGame) : Option PokerGame :=
  match dealCard g.deck with
  | none => none
  | some (_, d0) =>
    match dealCard d0 with
    | none => none
    | some (c1, d1) =>
      match dealCard d1 with
      | none => none
      | some (c2, d2) =>
        match dealCard d2 with
        | none => none
        | some (c3, d3) =>
          let cc := g.communityCards ++ [c1, c2, c3]
          some { g with deck := d3, communityCards := cc,
                        actionLog := g.actionLog ++ [.flopDealt (cc.take 3)],
                        gameActions := g.gameActions ++
                          [{ playerId := -1, action := .reveal (cc.take 3),
                             amount := none, phase := .flop }] }

/-- `dealTurn()`: burn one card, deal one community card, log and record
`communityCards[3]`. -/
def dealTurn (g : PokerGame) : Option PokerGame :=
  match dealCard g.deck with
  | none => none
  | some (_, d0) =>
    match dealCard d0 with
    | none => none
    | some (c, d1) =>
      let cc := g.communityCards ++ [c]
      let shown := cc.getD 3 { rank := .two, suit := .hearts }
      some { g with deck := d1, communityCards := cc,
                    actionLog := g.actionLog ++ [.turnDealt shown],
                    gameActions := g.gameActions ++
                      [{ playerId := -1, action := .reveal [shown],
                         amount := none, phase := .turn }] }

/-- `dealRiver()`: burn one card, deal one community card, log and record
`communityCards[4]`. -/
def dealRiver (g : PokerGame) : Option PokerGame :=
  match dealCard g.deck with
  | none => none
  | some (_, d0) =>
    match dealCard d0 with
    | none => none
    | some (c, d1) =>
      let cc := g.communityCards ++ [c]
      let shown := cc.getD 4 { rank := .two, suit := .hearts }
      some { g with deck := d1, communityCards := cc,
                    actionLog := g.actionLog ++ [.riverDealt shown],
                    gameActions := g.gameActions ++
                      [{ playerId := -1, action := .reveal [shown],
                         amount := none, phase := .river }] }

/-- The `setActivePlayer(); logAction(Action to ...)` tail shared by the
non-terminal branches of `advanceToNextPhase`. -/
def advanceTail (g : PokerGame) : PokerGame :=
  let g := setActivePlayer g
  { g with actionLog := g.actionLog ++ [.actionTo g.activePlayerIndex] }

/-- `advanceToNextPhase()`: clear per-street bets and acted flags, reset
`currentBet`; with at most one non-folded seat jump straight to FINISHED and
settle; otherwise deal the next street (PREFLOP to FLOP, FLOP to TURN, TURN to
RIVER), or settle at SHOWDOWN after the RIVER. The TypeScript switch has no
case for SETUP/SHOWDOWN/FINISHED, so those fall through to the
active-seat/log tail with the phase unchanged. -/
def advanceToNextPhase (g : PokerGame) : Option PokerGame :=
  let g := { g with players := g.players.map fun (p : Player) => { p with hasActed := false, currentBet := 0 },
                    currentBet := 0 }
  if (g.players.filter fun p => !p.hasFolded).length ≤ 1 then
    processHandCompletion { g with phase := .finished }
  else
    match g.phase with
    | .preflop =>
      match dealFlop g with
      | none => none
      | some g => some (advanceTail { g with phase := .flop })
    | .flop =>
      match dealTurn g with
      | none => none
      | some g => some (advanceTail { g with phase := .turn })
    | .turn =>
      match dealRiver g with
      | none => none
      | some g => some (advanceTail { g with phase := .river })
    | .river => processShowdown { g with phase := .showdown }
    | _ => some (advanceTail g)

/-- The shared tail of every accepted `processAction` branch: append the log
entry and the hand-history token (stamped with the acting seat and the current
phase), move to the next seat, and advance the phase when the betting round is
complete. Returns the new state paired with the `true` success flag. -/
def finishAction (g : PokerGame) (entry : LogEntry) (token : ActionToken)
    (actionAmount : Int) : Option (PokerGame × Bool) :=
  let g := { g with actionLog := g.actionLog ++ [entry],
                    gameActions := g.gameActions ++
                      [{ playerId := (g.activePlayerIndex : Int), action := token,
                         amount := some actionAmount, phase := g.phase }] }
  let g := moveToNextPlayer g
  if isBettingRoundComplete g then
    match advanceToNextPhase g with
    | none => none
    | some g => some (g, true)
  else some (g, true)

/-- `processAction(action, amount?)`: reject (returning `false`, state
untouched at that point) when the active seat cannot act; otherwise clear
`isFirstAction`, validate the specific action against `currentBet` and the
amount, apply the seat/pot/bet-level updates, and run the shared tail.
Validation failures return `false` with no further mutation (but the
`isFirstAction` clear has already happened). The JS falsy test `!amount`
rejects both an absent and a zero amount. -/
def processAction (g : PokerGame) (action : PlayerAction) (amount : Option Int) :
    Option (PokerGame × Bool) :=
  let player := g.players.getD g.activePlayerIndex emptyPlayer
  if !player.canAct then some (g, false)
  else
    let g := if g.isFirstAction then { g with isFirstAction := false } else g
    let amountToCall := g.currentBet - player.currentBet
    match action with
    | .fold =>
      finishAction { g with players := g.players.set g.activePlayerIndex player.fold }
        (.folds g.activePlayerIndex) .f 0
    | .check =>
      if 0 < amountToCall then some (g, false)
      else
        finishAction { g with players := g.players.set g.activePlayerIndex player.check }
          (.checks g.activePlayerIndex) .x 0
    | .call =>
      if amountToCall ≤ 0 then some (g, false)
      else
        let (p', actionAmount) := player.call amountToCall
        finishAction { g with players := g.players.set g.activePlayerIndex p',
                              pot := g.pot + actionAmount }
          (.calls g.activePlayerIndex actionAmount) .c actionAmount
    | .bet =>
      if 0 < g.currentBet then some (g, false)
      else
        match amount with
        | none => some (g, false)
        | some a =>
          if a = 0 ∨ a < BIG_BLIND then some (g, false)
          else
            let (p', actionAmount) := player.bet a
            finishAction { g with players := g.players.set g.activePlayerIndex p',
                                  pot := g.pot + actionAmount,
                                  currentBet := p'.currentBet }
              (.bets g.activePlayerIndex actionAmount) (.b actionAmount) actionAmount
    | .raise =>
      if g.currentBet = 0 then some (g, false)
      else
        match amount with
        | none => some (g, false)
        | some a =>
          if a = 0 ∨ a ≤ g.currentBet then some (g, false)
          else
            let totalRaiseAmount := a - player.currentBet
            let (p', actionAmount) := player.bet totalRaiseAmount
            finishAction { g with players := g.players.set g.activePlayerIndex p',
                                  pot := g.pot + actionAmount,
                                  currentBet := p'.currentBet }
              (.raisesTo g.activePlayerIndex p'.currentBet) (.r p'.currentBet) actionAmount
    | .all_in =>
      let (p', actionAmount) := player.allIn
      finishAction { g with players := g.players.set g.activePlayerIndex p',
                            pot := g.pot + actionAmount,
                            currentBet := if g.currentBet < p'.currentBet
                                          then p'.currentBet else g.currentBet }
        (.allInFor g.activePlayerIndex actionAmount) .allin actionAmount

/-- `getValidActions()`: empty when the active seat cannot act or the phase is
FINISHED or SETUP; otherwise FOLD, then CHECK (and BET when the stack covers
the big blind) with nothing to call, or CALL (stack covering the call) and
RAISE (stack strictly above the call and at least the big blind) facing a bet;
ALL_IN whenever the stack is positive. -/
def getValidActions (g : PokerGame) : List PlayerAction :=
  let player := g.players.getD g.activePlayerIndex emptyPlayer
  if !player.canAct || g.phase = .finished || g.phase = .setup then []
  else
    let amountToCall := g.currentBet - player.currentBet
    [PlayerAction.fold] ++
    (if amountToCall = 0 then
      [PlayerAction.check] ++ (if BIG_BLIND ≤ player.stack then [PlayerAction.bet] else [])
    else
      (if amountToCall ≤ player.stack then [PlayerAction.call] else []) ++
      (if amountToCall < player.stack ∧ BIG_BLIND ≤ player.stack
       then [PlayerAction.raise] else [])) ++
    (if 0 < player.stack then [PlayerAction.all_in] else [])

/-! ## Derived observations and reachability -/

/-- Sum of a list of chip amounts. -/
def intSum (l : List Int) : Int := l.sum

/-- Sum of the stacks of a list of seats. -/
def sumStacks (l : List Player) : Int := (l.map Player.stack).sum

/-- Sum of the whole-hand bet totals of a list of seats. -/
def sumTotals (l : List Player) : Int := (l.map Player.totalBetThisHand).sum

/-- Number of non-folded seats in a list. -/
def cntNF (l : List Player) : Nat := (l.filter fun p => !p.hasFolded).length

/-- Total chips sitting in the six seats' stacks. -/
def stackSum (g : PokerGame) : Int := sumStacks g.players

/-- Total chips committed to the hand across all seats (`Σ totalBetThisHand`). -/
def betSum (g : PokerGame) : Int := sumTotals g.players

/-- Number of seats that have not folded. -/
def nonFoldedCount (g : PokerGame) : Nat := cntNF g.players

/-- The chip-relevant projection of a seat: everything except the hole cards.
Dealing cards changes a seat only up to this projection. -/
structure PlayerChips where
  currentBet : Int
  totalBetThisHand : Int
  hasFolded : Bool
  isAllIn : Bool
  hasActed : Bool
  stack : Int
deriving DecidableEq, Repr

/-- Project a seat onto its chip-relevant fields. -/
def Player.chips (p : Player) : PlayerChips :=
  { currentBet := p.currentBet, totalBetThisHand := p.totalBetThisHand,
    hasFolded := p.hasFolded, isAllIn := p.isAllIn, hasActed := p.hasActed,
    stack := p.stack }

/-- The states of one hand, as driven through the public engine surface: stack
configuration via `setPlayerStacks` on a fresh engine, `startNewHand` with some
shuffled deck, then any sequence of accepted actions submitted while the hand
has not yet FINISHED. -/
inductive ReachableInHand : PokerGame → Prop
  | start (stackCfg : List Int) (shuffledDeck : List Card) (g0 g : PokerGame) :
      setPlayerStacks initialGame stackCfg = some g0 →
      startNewHand g0 shuffledDeck = some g →
      ReachableInHand g
  | step (g g' : PokerGame) (a : PlayerAction) (amount : Option Int) :
      ReachableInHand g →
      g.phase ≠ .finished →
      processAction g a amount = some (g', true) →
      ReachableInHand g'

/-- Phase/community-card consistency as the code actually maintains it: no
community cards through PREFLOP, three on the FLOP, four on the TURN, five on
the RIVER and at SHOWDOWN; a FINISHED hand keeps the count it had when it
ended (0, 3 or 4 after an early fold-out, 5 after a showdown). -/
def communityOk (g : PokerGame) : Prop :=
  match g.phase with
  | .setup => g.communityCards.length = 0
  | .preflop => g.communityCards.length = 0
  | .flop => g.communityCards.length = 3
  | .turn => g.communityCards.length = 4
  | .river => g.communityCards.length = 5
  | .showdown => g.communityCards.length = 5
  | .finished =>
      g.communityCards.length = 0 ∨ g.communityCards.length = 3 ∨
      g.communityCards.length = 4 ∨ g.communityCards.length = 5

/-- Per-seat sign conditions: a seat never owes chips, and its street bet is
non-negative and bounded by its whole-hand total. -/
def NNP (l : List Player) : Prop :=
  ∀ p ∈ l, 0 ≤ p.stack ∧ 0 ≤ p.currentBet ∧ p.currentBet ≤ p.totalBetThisHand

/-- Sign conditions that hold whenever the caller supplied non-negative
starting stacks: seats never owe chips, street bets are non-negative and
bounded by the hand total, and the table bet level is non-negative. -/
def NonnegState (g : PokerGame) : Prop :=
  NNP g.players ∧ 0 ≤ g.currentBet

/-- The inductive invariant of one hand. -/
structure EngineInv (g : PokerGame) : Prop where
  len : g.players.length = 6
  phase_ok : g.phase ≠ .setup ∧ g.phase ≠ .showdown
  funded2 : g.phase ≠ .finished → 2 ≤ nonFoldedCount g
  conserve : g.phase ≠ .finished → g.pot + stackSum g = intSum g.initialStacks
  conserveFin : g.phase = .finished → stackSum g = intSum g.initialStacks
  community : communityOk g
  potEq : g.pot = betSum g
  nonneg : (∀ x ∈ g.initialStacks, 0 ≤ x) → NonnegState g

/-! ## Concrete executions used to check the specification's scenarios -/

/-- Run one action and keep the state only when the engine accepted it. -/
def stepA (g : PokerGame) (a : PlayerAction) (amt : Option Int) : Option PokerGame :=
  match processAction g a amt with
  | some (g', true) => some g'
  | _ => none

/-- Six seats of 1000 chips, stacks configured, hand started with the deck in
generation order. -/
def hand1000 : Option PokerGame :=
  (setPlayerStacks initialGame (List.replicate 6 1000)).bind fun g =>
    startNewHand g freshDeck

/-- The same state, extracted (the run does succeed, see the theorems below). -/
def afterStart : PokerGame := hand1000.getD initialGame

/-- The engine right after `setPlayerStacks` on a fresh table — configured but
with no hand started (phase SETUP). -/
def configuredOnly : PokerGame :=
  (setPlayerStacks initialGame (List.replicate 6 1000)).getD initialGame

/-- From `hand1000`: the five accepted folds that end the hand at once. -/
def foldOutRun : Option PokerGame :=
  (((((hand1000.bind fun g => stepA g .fold none).bind fun g =>
    stepA g .fold none).bind fun g => stepA g .fold none).bind fun g =>
    stepA g .fold none).bind fun g => stepA g .fold none)

/-- Stacks where the UTG seat (seat 4) holds only 10 chips, hand started. -/
def shortStackHand : Option PokerGame :=
  (setPlayerStacks initialGame [1000, 1000, 1000, 1000, 10, 1000]).bind fun g =>
    startNewHand g freshDeck

/-- Stacks where seat 5 holds only 50 chips, hand started, then seat 4 raises
to 200 (accepted). -/
def raiseSetup : Option PokerGame :=
  ((setPlayerStacks initialGame [1000, 1000, 1000, 1000, 1000, 50]).bind fun g =>
    startNewHand g freshDeck).bind fun g => stepA g .raise (some 200)

/-- Seat 5 then raises to 300 holding only 50 chips. -/
def raiseShort : Option (PokerGame × Bool) :=
  raiseSetup.bind fun g => processAction g .raise (some 300)

/-- The rejected CHECK submitted right after the hand starts (UTG owes 40). -/
def rejectedCheck : Option (PokerGame × Bool) :=
  hand1000.map (fun g => g) |>.bind fun g => processAction g .check none

/-- A table where every seat is broke (so the active seat cannot act). -/
def brokeGame : PokerGame :=
  (setPlayerStacks initialGame (List.replicate 6 0)).getD initialGame

/-- A one-funded-seat configuration: only seat 0 has chips. -/
def oneFundedStart : Option PokerGame :=
  (setPlayerStacks initialGame [1000, 0, 0, 0, 0, 0]).bind fun g =>
    startNewHand g freshDeck


/-- The engine state right after `resetForNewHand` on the 6x1000 table, for an
arbitrary shuffled deck `sd` (dealer rotated to 1, blinds to 2 and 3). -/
def resetDone (sd : List Card) : PokerGame :=
  { deck := sd
    players := List.replicate 6 { emptyPlayer with stack := 1000 }
    communityCards := []
    pot := 0
    currentBet := 0
    activePlayerIndex := 0
    dealerIndex := 1
    smallBlindIndex := 2
    bigBlindIndex := 3
    phase := .setup
    actionLog := []
    gameActions := []
    isFirstAction := true
    initialStacks := List.replicate 6 1000 }

/-- The same state after `postBlinds`: seats 2 and 3 have posted 20 and 40. -/
def blindsPosted (sd : List Card) : PokerGame :=
  { resetDone sd with
      players := [
        { emptyPlayer with stack := 1000 },
        { emptyPlayer with stack := 1000 },
        { emptyPlayer with stack := 980, currentBet := 20, totalBetThisHand := 20, hasActed := true },
        { emptyPlayer with stack := 960, currentBet := 40, totalBetThisHand := 40, hasActed := true },
        { emptyPlayer with stack := 1000 },
        { emptyPlayer with stack := 1000 } ],
      pot := 60,
      currentBet := 40 }

/-! ## List helper lemmas -/

theorem getD_set_self {α : Type} (l : List α) (i : Nat) (a d : α) (h : i < l.length) :
    (l.set i a).getD i d = a := by
  induction l generalizing i with
  | nil => simp at h
  | cons x xs ih =>
    cases i with
    | zero => simp [List.set, List.getD]
    | succ n =>
      simp only [List.length_cons, Nat.succ_lt_succ_iff] at h
      simpa [List.set, List.getD] using ih n h

theorem getD_set_ne {α : Type} (l : List α) (i j : Nat) (a d : α) (h : i ≠ j) :
    (l.set i a).getD j d = l.getD j d := by
  induction l generalizing i j with
  | nil => simp [List.set]
  | cons x xs ih =>
    cases i with
    | zero =>
      cases j with
      | zero => exact absurd rfl h
      | succ m => simp [List.set, List.getD]
    | succ n =>
      cases j with
      | zero => simp [List.set, List.getD]
      | succ m =>
        simp only [List.set, List.getD_cons_succ]
        exact ih n m (fun hnm => h (by omega))

theorem getD_map {α β : Type} (f : α → β) (l : List α) (i : Nat) (d : α) :
    (l.map f).getD i (f d) = f (l.getD i d) := by
  induction l generalizing i with
  | nil => simp
  | cons x xs ih =>
    cases i with
    | zero => simp [List.getD]
    | succ n => simpa [List.getD] using ih n

theorem sum_map_set (f : Player → Int) (l : List Player) (i : Nat) (p : Player)
    (h : i < l.length) :
    ((l.set i p).map f).sum = (l.map f).sum - f (l.getD i emptyPlayer) + f p := by
  induction l generalizing i with
  | nil => simp at h
  | cons x xs ih =>
    cases i with
    | zero => simp [List.set, List.getD]; ring
    | succ n =>
      simp only [List.length_cons, Nat.succ_lt_succ_iff] at h
      simp only [List.set, List.map_cons, List.sum_cons, List.getD_cons_succ, ih n h]
      ring

theorem filterLen_set (q : Player → Bool) (l : List Player) (i : Nat) (p : Player)
    (h : i < l.length) :
    (((l.set i p).filter q).length : Int) =
      ((l.filter q).length : Int) - (if q (l.getD i emptyPlayer) then 1 else 0)
        + (if q p then 1 else 0) := by
  induction l generalizing i with
  | nil => simp at h
  | cons x xs ih =>
    cases i with
    | zero =>
      simp only [List.set, List.getD_cons_zero, List.filter_cons]
      by_cases hq : q x <;> by_cases hp : q p <;> simp [hq, hp] <;> ring
    | succ n =>
      simp only [List.length_cons, Nat.succ_lt_succ_iff] at h
      simp only [List.set, List.getD_cons_succ, List.filter_cons]
      by_cases hq : q x <;> simp [hq, ih n h] <;> ring

theorem mem_set_cases {α : Type} {l : List α} {i : Nat} {a b : α}
    (h : b ∈ l.set i a) : b ∈ l ∨ b = a := by
  induction l generalizing i with
  | nil => simp [List.set] at h
  | cons x xs ih =>
    cases i with
    | zero =>
      rcases List.mem_cons.mp h with h1 | h1
      · exact Or.inr h1
      · exact Or.inl (List.mem_cons_of_mem _ h1)
    | succ n =>
      rcases List.mem_cons.mp h with h1 | h1
      · subst h1
        exact Or.inl (List.mem_cons_self _ _)
      · rcases ih h1 with h2 | h2
        · exact Or.inl (List.mem_cons_of_mem _ h2)
        · exact Or.inr h2

theorem filterLen_map_of_pred {α : Type} (f : α → α) (q : α → Bool)
    (hq : ∀ a, q (f a) = q a) (l : List α) :
    ((l.map f).filter q).length = (l.filter q).length := by
  induction l with
  | nil => rfl
  | cons x xs ih =>
    simp only [List.map_cons, List.filter_cons, hq]
    by_cases h : q x <;> simp [h, ih]

/-! ## Player operation lemmas -/

theorem bet_snd (p : Player) (a : Int) : (p.bet a).2 = min a p.stack := by
  simp only [Player.bet]

theorem bet_stack (p : Player) (a : Int) : (p.bet a).1.stack = p.stack - min a p.stack := by
  simp only [Player.bet]
  split <;> rfl

theorem bet_currentBet (p : Player) (a : Int) :
    (p.bet a).1.currentBet = p.currentBet + min a p.stack := by
  simp only [Player.bet]
  split <;> rfl

theorem bet_total (p : Player) (a : Int) :
    (p.bet a).1.totalBetThisHand = p.totalBetThisHand + min a p.stack := by
  simp only [Player.bet]
  split <;> rfl

theorem bet_hasFolded (p : Player) (a : Int) : (p.bet a).1.hasFolded = p.hasFolded := by
  simp only [Player.bet]
  split <;> rfl

theorem bet_hasActed (p : Player) (a : Int) : (p.bet a).1.hasActed = true := by
  simp only [Player.bet]
  split <;> rfl

theorem bet_holeCards (p : Player) (a : Int) : (p.bet a).1.holeCards = p.holeCards := by
  simp only [Player.bet]
  split <;> rfl

theorem bet_isAllIn (p : Player) (a : Int) :
    (p.bet a).1.isAllIn = (p.isAllIn || decide (p.stack - min a p.stack = 0)) := by
  simp only [Player.bet]
  split
  next h => simp [h]
  next h => simp [h]

theorem bet_stack_nonneg (p : Player) (a : Int) : 0 ≤ (p.bet a).1.stack := by
  rw [bet_stack]
  have := min_le_right a p.stack
  omega

/-! ## Shape lemmas: operations that only touch bookkeeping fields -/

theorem getD_of_length_le {α : Type} (l : List α) (i : Nat) (d : α) (h : l.length ≤ i) :
    l.getD i d = d := by
  induction l generalizing i with
  | nil => simp [List.getD]
  | cons x xs ih =>
    cases i with
    | zero => simp at h
    | succ n =>
      simp only [List.length_cons, Nat.succ_le_succ_iff] at h
      simpa [List.getD] using ih n h

theorem active_lt_of_canAct (g : PokerGame)
    (h : (g.players.getD g.activePlayerIndex emptyPlayer).canAct = true) :
    g.activePlayerIndex < g.players.length := by
  by_contra hc
  rw [getD_of_length_le _ _ _ (by omega)] at h
  simp [emptyPlayer, Player.canAct] at h

theorem findNextActivePlayer_shape (g : PokerGame) :
    ∃ i, findNextActivePlayer g = { g with activePlayerIndex := i } := by
  unfold findNextActivePlayer
  rcases hf : (List.range 6).find?
      (fun k => (g.players.getD ((g.activePlayerIndex + k) % 6) emptyPlayer).canAct) with _ | k
  · exact ⟨g.activePlayerIndex, rfl⟩
  · exact ⟨(g.activePlayerIndex + k) % 6, rfl⟩

theorem setActivePlayer_shape (g : PokerGame) :
    ∃ i, setActivePlayer g = { g with activePlayerIndex := i } := by
  unfold setActivePlayer
  obtain ⟨i, hi⟩ := findNextActivePlayer_shape
    { g with activePlayerIndex :=
        if g.phase = .preflop then (g.bigBlindIndex + 1) % 6 else (g.dealerIndex + 1) % 6 }
  exact ⟨i, hi⟩

theorem moveToNextPlayer_shape (g : PokerGame) :
    ∃ i, moveToNextPlayer g = { g with activePlayerIndex := i } := by
  unfold moveToNextPlayer
  obtain ⟨i, hi⟩ := findNextActivePlayer_shape
    { g with activePlayerIndex := (g.activePlayerIndex + 1) % 6 }
  exact ⟨i, hi⟩

theorem advanceTail_shape (g : PokerGame) :
    ∃ i al, advanceTail g = { g with activePlayerIndex := i, actionLog := al } := by
  unfold advanceTail
  obtain ⟨i, hi⟩ := setActivePlayer_shape g
  rw [hi]
  exact ⟨i, _, rfl⟩

/-! ## firstIdxWhere lemmas -/

theorem firstIdxWhere_lt (q : Player → Bool) (l : List Player) (w : Nat)
    (h : firstIdxWhere q l = some w) : w < l.length := by
  induction l generalizing w with
  | nil => simp [firstIdxWhere] at h
  | cons x xs ih =>
    simp only [firstIdxWhere] at h
    cases hq : q x with
    | true =>
      rw [hq] at h
      simp only [if_true] at h
      cases h
      simp
    | false =>
      rw [hq] at h
      simp only [Bool.false_eq_true, if_false] at h
      obtain ⟨v, hv, hw⟩ := Option.map_eq_some'.mp h
      have := ih v hv
      simp only [List.length_cons]
      omega

theorem firstIdxWhere_pred (q : Player → Bool) (l : List Player) (w : Nat) (d : Player)
    (h : firstIdxWhere q l = some w) : q (l.getD w d) = true := by
  induction l generalizing w with
  | nil => simp [firstIdxWhere] at h
  | cons x xs ih =>
    simp only [firstIdxWhere] at h
    cases hq : q x with
    | true =>
      rw [hq] at h
      simp only [if_true] at h
      cases h
      simpa [List.getD] using hq
    | false =>
      rw [hq] at h
      simp only [Bool.false_eq_true, if_false] at h
      obtain ⟨v, hv, hw⟩ := Option.map_eq_some'.mp h
      subst hw
      simpa [List.getD] using ih v hv

theorem firstIdxWhere_isSome_iff (q : Player → Bool) (l : List Player) :
    (firstIdxWhere q l).isSome ↔ 0 < (l.filter q).length := by
  induction l with
  | nil => simp [firstIdxWhere]
  | cons x xs ih =>
    simp only [firstIdxWhere, List.filter_cons]
    cases hq : q x with
    | true => simp
    | false =>
      simp only [Bool.false_eq_true, if_false]
      rw [← ih]
      cases firstIdxWhere q xs <;> simp

/-! ## Dealing preserves the chip view -/

theorem chips_set_holeCards (l : List Player) (i : Nat) (hc : List Card) :
    (l.set i { l.getD i emptyPlayer with holeCards := hc }).map Player.chips
      = l.map Player.chips := by
  induction l generalizing i with
  | nil => simp [List.set]
  | cons x xs ih =>
    cases i with
    | zero => simp [List.set, List.getD, Player.chips]
    | succ n =>
      simp only [List.set, List.getD_cons_succ, List.map_cons, List.cons.injEq, true_and]
      exact ih n

theorem dealCard_some (cards : List Card) (c : Card) (rest : List Card)
    (h : dealCard cards = some (c, rest)) : rest.length + 1 = cards.length := by
  unfold dealCard at h
  cases hl : cards.getLast? with
  | none => rw [hl] at h; cases h
  | some c' =>
    rw [hl] at h
    cases h
    have : cards ≠ [] := by
      intro he
      subst he
      simp at hl
    rw [List.length_dropLast]
    have : 0 < cards.length := List.length_pos.mpr this
    omega

theorem dealCard_isSome (cards : List Card) (h : 0 < cards.length) :
    (dealCard cards).isSome := by
  unfold dealCard
  cases hl : cards.getLast? with
  | none =>
    rw [List.getLast?_eq_none_iff] at hl
    subst hl
    simp at h
  | some c => simp

theorem dealOneHole_shape (g g' : PokerGame) (i : Nat) (h : dealOneHole g i = some g') :
    ∃ dk pl, g' = { g with deck := dk, players := pl }
      ∧ pl.map Player.chips = g.players.map Player.chips
      ∧ dk.length + 1 = g.deck.length := by
  unfold dealOneHole at h
  cases hd : dealCard g.deck with
  | none => rw [hd] at h; cases h
  | some pr =>
    obtain ⟨c, dk⟩ := pr
    rw [hd] at h
    cases h
    exact ⟨dk, _, rfl, chips_set_holeCards _ _ _, dealCard_some _ c dk hd⟩

theorem dealHoleCardsAux_shape (l : List Nat) (g g' : PokerGame)
    (h : dealHoleCardsAux g l = some g') :
    ∃ dk pl, g' = { g with deck := dk, players := pl }
      ∧ pl.map Player.chips = g.players.map Player.chips := by
  induction l generalizing g with
  | nil =>
    simp only [dealHoleCardsAux, Option.some.injEq] at h
    subst h
    exact ⟨g.deck, g.players, rfl, rfl⟩
  | cons i rest ih =>
    simp only [dealHoleCardsAux] at h
    cases hd : dealOneHole g i with
    | none => rw [hd] at h; cases h
    | some g1 =>
      rw [hd] at h
      obtain ⟨dk1, pl1, he1, hc1, _⟩ := dealOneHole_shape g g1 i hd
      obtain ⟨dk2, pl2, he2, hc2⟩ := ih g1 h
      subst he1
      subst he2
      exact ⟨dk2, pl2, rfl, by rw [hc2]; exact hc1⟩

theorem dealHoleCardsAux_isSome (l : List Nat) (g : PokerGame)
    (h : l.length ≤ g.deck.length) : (dealHoleCardsAux g l).isSome := by
  induction l generalizing g with
  | nil => simp [dealHoleCardsAux]
  | cons i rest ih =>
    simp only [dealHoleCardsAux]
    have hpos : 0 < g.deck.length := by
      simp only [List.length_cons] at h
      omega
    cases hd : dealOneHole g i with
    | none =>
      exfalso
      unfold dealOneHole at hd
      cases hdc : dealCard g.deck with
      | none =>
        have := dealCard_isSome g.deck hpos
        rw [hdc] at this
        cases this
      | some pr => rw [hdc] at hd; cases hd
    | some g1 =>
      obtain ⟨dk, pl, he, _, hlen⟩ := dealOneHole_shape g g1 i hd
      apply ih
      subst he
      simp only [List.length_cons] at h
      simpa using by omega

theorem dealFlop_shape (g g' : PokerGame) (h : dealFlop g = some g') :
    ∃ dk cs lg ga, g' = { g with deck := dk, communityCards := cs, actionLog := lg,
                                 gameActions := ga }
      ∧ cs.length = g.communityCards.length + 3 := by
  unfold dealFlop at h
  split at h
  · cases h
  · split at h
    · cases h
    · split at h
      · cases h
      · split at h
        · cases h
        · cases h
          exact ⟨_, _, _, _, rfl, by simp⟩

theorem dealTurn_shape (g g' : PokerGame) (h : dealTurn g = some g') :
    ∃ dk cs lg ga, g' = { g with deck := dk, communityCards := cs, actionLog := lg,
                                 gameActions := ga }
      ∧ cs.length = g.communityCards.length + 1 := by
  unfold dealTurn at h
  split at h
  · cases h
  · split at h
    · cases h
    · cases h
      exact ⟨_, _, _, _, rfl, by simp⟩

theorem dealRiver_shape (g g' : PokerGame) (h : dealRiver g = some g') :
    ∃ dk cs lg ga, g' = { g with deck := dk, communityCards := cs, actionLog := lg,
                                 gameActions := ga }
      ∧ cs.length = g.communityCards.length + 1 := by
  unfold dealRiver at h
  split at h
  · cases h
  · split at h
    · cases h
    · cases h
      exact ⟨_, _, _, _, rfl, by simp⟩

/-! ## Transfer along equal chip views -/

theorem sumStacks_eq_of_chips {l1 l2 : List Player}
    (h : l1.map Player.chips = l2.map Player.chips) : sumStacks l1 = sumStacks l2 := by
  have e1 : l1.map Player.stack = (l1.map Player.chips).map PlayerChips.stack := by
    rw [List.map_map]; rfl
  have e2 : l2.map Player.stack = (l2.map Player.chips).map PlayerChips.stack := by
    rw [List.map_map]; rfl
  unfold sumStacks
  rw [e1, e2, h]

theorem sumTotals_eq_of_chips {l1 l2 : List Player}
    (h : l1.map Player.chips = l2.map Player.chips) : sumTotals l1 = sumTotals l2 := by
  have e1 : l1.map Player.totalBetThisHand =
      (l1.map Player.chips).map PlayerChips.totalBetThisHand := by
    rw [List.map_map]; rfl
  have e2 : l2.map Player.totalBetThisHand =
      (l2.map Player.chips).map PlayerChips.totalBetThisHand := by
    rw [List.map_map]; rfl
  unfold sumTotals
  rw [e1, e2, h]

theorem cntNF_from_chips (l : List Player) :
    cntNF l = ((l.map Player.chips).filter fun c => !c.hasFolded).length := by
  unfold cntNF
  induction l with
  | nil => rfl
  | cons x xs ih =>
    simp only [List.map_cons, List.filter_cons]
    cases hx : x.hasFolded with
    | true => simpa [Player.chips, hx] using ih
    | false => simpa [Player.chips, hx] using ih

theorem cntNF_eq_of_chips {l1 l2 : List Player}
    (h : l1.map Player.chips = l2.map Player.chips) : cntNF l1 = cntNF l2 := by
  rw [cntNF_from_chips, cntNF_from_chips, h]

theorem length_eq_of_chips {l1 l2 : List Player}
    (h : l1.map Player.chips = l2.map Player.chips) : l1.length = l2.length := by
  have := congrArg List.length h
  simpa using this

theorem NNP_of_chips {l1 l2 : List Player}
    (h : l1.map Player.chips = l2.map Player.chips) (hp : NNP l1) : NNP l2 := by
  intro p hmem
  have hm : Player.chips p ∈ l2.map Player.chips := List.mem_map_of_mem _ hmem
  rw [← h] at hm
  obtain ⟨q, hq, he⟩ := List.mem_map.mp hm
  have h3 := hp q hq
  have es : q.stack = p.stack := congrArg PlayerChips.stack he
  have ec : q.currentBet = p.currentBet := congrArg PlayerChips.currentBet he
  have et : q.totalBetThisHand = p.totalBetThisHand := congrArg PlayerChips.totalBetThisHand he
  omega

theorem getD_canAct_of_chips {l1 l2 : List Player} (i : Nat)
    (h : l1.map Player.chips = l2.map Player.chips) :
    (l1.getD i emptyPlayer).canAct = (l2.getD i emptyPlayer).canAct := by
  have h1 : (l1.map Player.chips).getD i (Player.chips emptyPlayer)
      = (l2.map Player.chips).getD i (Player.chips emptyPlayer) := by rw [h]
  rw [getD_map, getD_map] at h1
  have hs : (l1.getD i emptyPlayer).stack = (l2.getD i emptyPlayer).stack :=
    congrArg PlayerChips.stack h1
  have hf : (l1.getD i emptyPlayer).hasFolded = (l2.getD i emptyPlayer).hasFolded :=
    congrArg PlayerChips.hasFolded h1
  have ha : (l1.getD i emptyPlayer).isAllIn = (l2.getD i emptyPlayer).isAllIn :=
    congrArg PlayerChips.isAllIn h1
  unfold Player.canAct
  rw [hs, hf, ha]

/-! ## The street reset at the top of advanceToNextPhase -/

theorem streetReset_facts (l : List Player) :
    sumStacks (l.map fun p : Player => { p with hasActed := false, currentBet := 0 })
        = sumStacks l
    ∧ sumTotals (l.map fun p : Player => { p with hasActed := false, currentBet := 0 })
        = sumTotals l
    ∧ cntNF (l.map fun p : Player => { p with hasActed := false, currentBet := 0 })
        = cntNF l
    ∧ (l.map fun p : Player => { p with hasActed := false, currentBet := 0 }).length
        = l.length := by
  refine ⟨?_, ?_, ?_, by simp⟩
  · unfold sumStacks
    induction l with
    | nil => rfl
    | cons x xs ih => simpa using ih
  · unfold sumTotals
    induction l with
    | nil => rfl
    | cons x xs ih => simpa using ih
  · unfold cntNF
    induction l with
    | nil => rfl
    | cons x xs ih =>
      simp only [List.map_cons, List.filter_cons]
      cases hx : x.hasFolded with
      | true => simpa [hx] using ih
      | false => simpa [hx] using ih

theorem streetReset_NNP (l : List Player) (hp : NNP l) :
    NNP (l.map fun p : Player => { p with hasActed := false, currentBet := 0 }) := by
  intro p hmem
  obtain ⟨q, hq, he⟩ := List.mem_map.mp hmem
  have h3 := hp q hq
  subst he
  simp only
  omega

theorem getD_mem {α : Type} (l : List α) (i : Nat) (d : α) (h : i < l.length) :
    l.getD i d ∈ l := by
  induction l generalizing i with
  | nil => simp at h
  | cons x xs ih =>
    cases i with
    | zero => simp [List.getD]
    | succ n =>
      simp only [List.length_cons, Nat.succ_lt_succ_iff] at h
      simp only [List.getD_cons_succ]
      exact List.mem_cons_of_mem _ (ih n h)

theorem cntNF_set_stack (l : List Player) (i : Nat) (s : Int) :
    cntNF (l.set i { l.getD i emptyPlayer with stack := s }) = cntNF l := by
  unfold cntNF
  induction l generalizing i with
  | nil => simp [List.set]
  | cons x xs ih =>
    cases i with
    | zero =>
      simp only [List.set, List.getD_cons_zero, List.filter_cons]
      cases hx : x.hasFolded with
      | true => simp [hx]
      | false => simp [hx]
    | succ n =>
      simp only [List.set, List.getD_cons_succ, List.filter_cons]
      cases hx : x.hasFolded with
      | true => simpa [hx] using ih n
      | false => simpa [hx] using ih n

/-! ## Hand completion -/

theorem completion_facts (g g' : PokerGame) (h : processHandCompletion g = some g') :
    g'.phase = .finished
    ∧ g'.communityCards = g.communityCards
    ∧ g'.pot = g.pot
    ∧ g'.currentBet = g.currentBet
    ∧ g'.initialStacks = g.initialStacks
    ∧ g'.players.length = g.players.length
    ∧ stackSum g' = stackSum g + g.pot
    ∧ betSum g' = betSum g
    ∧ nonFoldedCount g' = nonFoldedCount g
    ∧ (NNP g.players → 0 ≤ g.pot → NNP g'.players) := by
  unfold processHandCompletion at h
  cases hw : firstIdxWhere (fun p => !p.hasFolded) g.players with
  | none => rw [hw] at h; cases h
  | some w =>
    rw [hw] at h
    cases h
    have hlt : w < g.players.length := firstIdxWhere_lt _ _ _ hw
    have hpred := firstIdxWhere_pred _ _ w emptyPlayer hw
    refine ⟨rfl, rfl, rfl, rfl, rfl, by simpa using Nat.le_antisymm (by simp) (by simp), ?_, ?_, ?_, ?_⟩
    · show sumStacks _ = sumStacks g.players + g.pot
      unfold sumStacks
      rw [sum_map_set _ _ _ _ hlt]
      simp only
      ring
    · show sumTotals _ = sumTotals g.players
      unfold sumTotals
      rw [sum_map_set _ _ _ _ hlt]
      simp only
      ring
    · show cntNF _ = cntNF g.players
      exact cntNF_set_stack g.players w _
    · intro hp hpot p hmem
      rcases mem_set_cases hmem with hin | hew
      · exact hp p hin
      · have h3 := hp (g.players.getD w emptyPlayer) (getD_mem _ _ _ hlt)
        subst hew
        simp only
        omega

theorem completion_isSome (g : PokerGame) (h : 1 ≤ nonFoldedCount g) :
    (processHandCompletion g).isSome := by
  unfold processHandCompletion
  cases hw : firstIdxWhere (fun p => !p.hasFolded) g.players with
  | none =>
    exfalso
    have h2 := (firstIdxWhere_isSome_iff (fun p => !p.hasFolded) g.players).mpr
      (by unfold nonFoldedCount cntNF at h; omega)
    rw [hw] at h2
    cases h2
  | some w => simp

/-! ## Phase advance -/

theorem advance_facts (g g' : PokerGame)
    (hphase : g.phase = .preflop ∨ g.phase = .flop ∨ g.phase = .turn ∨ g.phase = .river)
    (hcomm : communityOk g)
    (h : advanceToNextPhase g = some g') :
    g'.players.length = g.players.length
    ∧ g'.initialStacks = g.initialStacks
    ∧ (g'.phase ≠ .setup ∧ g'.phase ≠ .showdown)
    ∧ g'.currentBet = 0
    ∧ communityOk g'
    ∧ (g'.phase ≠ .finished →
        nonFoldedCount g' = nonFoldedCount g ∧ 2 ≤ nonFoldedCount g
        ∧ g'.pot = g.pot ∧ stackSum g' = stackSum g ∧ betSum g' = betSum g)
    ∧ (g'.phase = .finished →
        g'.pot = g.pot ∧ stackSum g' = stackSum g + g.pot ∧ betSum g' = betSum g)
    ∧ (NNP g.players → 0 ≤ g.pot → NNP g'.players) := by
  obtain ⟨hs4, ht4, hc4, hl4⟩ := streetReset_facts g.players
  have hnnp4 := streetReset_NNP g.players
  simp only [advanceToNextPhase] at h
  split at h
  case isTrue hle =>
    obtain ⟨c1, c2, c3, c4, c5, c6, c7, c8, c9, c10⟩ := completion_facts _ _ h
    refine ⟨?_, ?_, ?_, ?_, ?_, ?_, ?_, ?_⟩
    · simp only at c6
      rw [c6, hl4]
    · simpa using c5
    · rw [c1]
      exact ⟨(fun hx => nomatch hx), (fun hx => nomatch hx)⟩
    · simpa using c4
    · unfold communityOk
      rw [c1]
      simp only at c2
      rw [c2]
      rcases hphase with hp | hp | hp | hp <;>
        (unfold communityOk at hcomm; rw [hp] at hcomm; simp [hcomm])
    · intro hne
      exact absurd c1 hne
    · intro _
      refine ⟨by simpa using c3, ?_, by simpa [betSum] using (ht4 ▸ c8)⟩
      have hst : stackSum g' = sumStacks g.players + g.pot := by
        simpa [stackSum, hs4] using c7
      simpa [stackSum] using hst
    · intro hp hpot
      exact c10 (hnnp4 hp) (by simpa using hpot)
  case isFalse hgt =>
    split at h
    case h_1 hph =>
      rcases hd : dealFlop { g with
          players := g.players.map fun p : Player => { p with hasActed := false, currentBet := 0 },
          currentBet := 0 } with _ | g5
      · rw [hd] at h; cases h
      · rw [hd] at h
        cases h
        obtain ⟨dk, cs, lg, ga, he5, hlen5⟩ := dealFlop_shape _ _ hd
        obtain ⟨ai, al, hat⟩ := advanceTail_shape { g5 with phase := .flop }
        rw [hat]
        subst he5
        simp only at hlen5
        refine ⟨?_, ?_, ?_, ?_, ?_, ?_, ?_, ?_⟩
        · simpa using hl4
        · rfl
        · exact ⟨(fun hx => nomatch hx), (fun hx => nomatch hx)⟩
        · rfl
        · unfold communityOk
          unfold communityOk at hcomm
          rw [hph] at hcomm
          simp only
          omega
        · intro _
          refine ⟨?_, ?_, rfl, by simpa [stackSum] using hs4, by simpa [betSum] using ht4⟩
          · simpa [nonFoldedCount] using hc4
          · unfold nonFoldedCount
            unfold cntNF at hc4 ⊢
            omega
        · intro hfin
          exact nomatch hfin
        · intro hp _
          exact hnnp4 hp
    case h_2 hph =>
      rcases hd : dealTurn { g with
          players := g.players.map fun p : Player => { p with hasActed := false, currentBet := 0 },
          currentBet := 0 } with _ | g5
      · rw [hd] at h; cases h
      · rw [hd] at h
        cases h
        obtain ⟨dk, cs, lg, ga, he5, hlen5⟩ := dealTurn_shape _ _ hd
        obtain ⟨ai, al, hat⟩ := advanceTail_shape { g5 with phase := .turn }
        rw [hat]
        subst he5
        simp only at hlen5
        refine ⟨?_, ?_, ?_, ?_, ?_, ?_, ?_, ?_⟩
        · simpa using hl4
        · rfl
        · exact ⟨(fun hx => nomatch hx), (fun hx => nomatch hx)⟩
        · rfl
        · unfold communityOk
          unfold communityOk at hcomm
          rw [hph] at hcomm
          simp only
          omega
        · intro _
          refine ⟨?_, ?_, rfl, by simpa [stackSum] using hs4, by simpa [betSum] using ht4⟩
          · simpa [nonFoldedCount] using hc4
          · unfold nonFoldedCount
            unfold cntNF at hc4 ⊢
            omega
        · intro hfin
          exact nomatch hfin
        · intro hp _
          exact hnnp4 hp
    case h_3 hph =>
      rcases hd : dealRiver { g with
          players := g.players.map fun p : Player => { p with hasActed := false, currentBet := 0 },
          currentBet := 0 } with _ | g5
      · rw [hd] at h; cases h
      · rw [hd] at h
        cases h
        obtain ⟨dk, cs, lg, ga, he5, hlen5⟩ := dealRiver_shape _ _ hd
        obtain ⟨ai, al, hat⟩ := advanceTail_shape { g5 with phase := .river }
        rw [hat]
        subst he5
        simp only at hlen5
        refine ⟨?_, ?_, ?_, ?_, ?_, ?_, ?_, ?_⟩
        · simpa using hl4
        · rfl
        · exact ⟨(fun hx => nomatch hx), (fun hx => nomatch hx)⟩
        · rfl
        · unfold communityOk
          unfold communityOk at hcomm
          rw [hph] at hcomm
          simp only
          omega
        · intro _
          refine ⟨?_, ?_, rfl, by simpa [stackSum] using hs4, by simpa [betSum] using ht4⟩
          · simpa [nonFoldedCount] using hc4
          · unfold nonFoldedCount
            unfold cntNF at hc4 ⊢
            omega
        · intro hfin
          exact nomatch hfin
        · intro hp _
          exact hnnp4 hp
    case h_4 hri =>
      unfold processShowdown at h
      obtain ⟨c1, c2, c3, c4, c5, c6, c7, c8, c9, c10⟩ := completion_facts _ _ h
      refine ⟨?_, ?_, ?_, ?_, ?_, ?_, ?_, ?_⟩
      · simp only at c6
        rw [c6, hl4]
      · simpa using c5
      · rw [c1]
        exact ⟨(fun hx => nomatch hx), (fun hx => nomatch hx)⟩
      · simpa using c4
      · unfold communityOk
        rw [c1]
        simp only at c2
        rw [c2]
        unfold communityOk at hcomm
        rw [hri] at hcomm
        simp [hcomm]
      · intro hne
        exact absurd c1 hne
      · intro _
        refine ⟨by simpa using c3, ?_, by simpa [betSum] using (ht4 ▸ c8)⟩
        have hst : stackSum g' = sumStacks g.players + g.pot := by
          simpa [stackSum, hs4] using c7
        simpa [stackSum] using hst
      · intro hp hpot
        exact c10 (hnnp4 hp) (by simpa using hpot)
    case h_5 h1 h2 h3 h4 =>
      exfalso
      rcases hphase with hp | hp | hp | hp
      · exact h1 hp
      · exact h2 hp
      · exact h3 hp
      · exact h4 hp

/-! ## The shared action tail -/

theorem count_ge_two_of_notComplete (g : PokerGame)
    (h : isBettingRoundComplete g = false) : 2 ≤ nonFoldedCount g := by
  simp only [isBettingRoundComplete] at h
  split at h
  · cases h
  · next hc =>
      unfold nonFoldedCount cntNF
      omega

theorem sumTotals_nonneg (l : List Player) (h : NNP l) : 0 ≤ sumTotals l := by
  unfold sumTotals
  apply List.sum_nonneg
  intro x hx
  obtain ⟨q, hq, he⟩ := List.mem_map.mp hx
  have h3 := h q hq
  omega

theorem finishAction_inv (g1 : PokerGame) (e : LogEntry) (t : ActionToken) (amt : Int)
    (g' : PokerGame) (S : Int)
    (hlen : g1.players.length = 6)
    (hphase : g1.phase = .preflop ∨ g1.phase = .flop ∨ g1.phase = .turn ∨ g1.phase = .river)
    (hcons : g1.pot + stackSum g1 = S)
    (hSinit : intSum g1.initialStacks = S)
    (hpot : g1.pot = betSum g1)
    (hcomm : communityOk g1)
    (hcnt : 1 ≤ nonFoldedCount g1)
    (hnn : (∀ x ∈ g1.initialStacks, 0 ≤ x) → NonnegState g1)
    (h : finishAction g1 e t amt = some (g', true)) :
    EngineInv g' := by
  simp only [finishAction] at h
  obtain ⟨mi, hmi⟩ := moveToNextPlayer_shape
    { g1 with actionLog := g1.actionLog ++ [e],
              gameActions := g1.gameActions ++
                [{ playerId := (g1.activePlayerIndex : Int), action := t,
                   amount := some amt, phase := g1.phase }] }
  rw [hmi] at h
  split at h
  case isTrue hrc =>
    cases ha : advanceToNextPhase { g1 with
        actionLog := g1.actionLog ++ [e],
        gameActions := g1.gameActions ++
          [{ playerId := (g1.activePlayerIndex : Int), action := t,
             amount := some amt, phase := g1.phase }],
        activePlayerIndex := mi } with
    | none => rw [ha] at h; cases h
    | some gA =>
      rw [ha] at h
      cases h
      obtain ⟨c1, c2, c3, c4, c5, c6, c7, c8⟩ := advance_facts _ _ (by simpa using hphase)
        (by simpa [communityOk] using hcomm) ha
      simp only at c1 c2 c6 c7 c8
      refine ⟨?_, c3, ?_, ?_, ?_, c5, ?_, ?_⟩
      · rw [c1, hlen]
      · intro hne
        rw [(c6 hne).1]
        exact (c6 hne).2.1
      · intro hne
        obtain ⟨_, _, hp, hs, _⟩ := c6 hne
        rw [c2, hSinit, hp]
        have hsg : stackSum g' = stackSum g1 := by simpa [stackSum] using hs
        rw [hsg]
        simpa [stackSum] using hcons
      · intro hfin
        obtain ⟨hp, hs, _⟩ := c7 hfin
        rw [c2, hSinit]
        have hsg : stackSum g' = stackSum g1 + g1.pot := by simpa [stackSum] using hs
        rw [hsg]
        have hc := hcons
        unfold stackSum at hc ⊢
        omega
      · rcases hfin : g'.phase == GamePhase.finished with _ | _
        · have hne : g'.phase ≠ .finished := by
            intro hx
            rw [hx] at hfin
            simp at hfin
          obtain ⟨_, _, hp, _, hb⟩ := c6 hne
          rw [hp]
          have hbg : betSum g' = betSum g1 := by simpa [betSum] using hb
          rw [hbg]
          simpa [betSum] using hpot
        · have hfe : g'.phase = .finished := eq_of_beq hfin
          obtain ⟨hp, _, hb⟩ := c7 hfe
          rw [hp]
          have hbg : betSum g' = betSum g1 := by simpa [betSum] using hb
          rw [hbg]
          simpa [betSum] using hpot
      · intro hinit
        rw [c2] at hinit
        have hns := hnn (by simpa using hinit)
        obtain ⟨hnp, hcb⟩ := hns
        constructor
        · apply c8
          · simpa [NNP] using hnp
          · have : 0 ≤ betSum g1 := sumTotals_nonneg _ hnp
            simpa using (hpot ▸ this)
        · rw [c4]
  case isFalse hrc =>
    cases h
    have hcnt2 : 2 ≤ nonFoldedCount { g1 with
        actionLog := g1.actionLog ++ [e],
        gameActions := g1.gameActions ++
          [{ playerId := (g1.activePlayerIndex : Int), action := t,
             amount := some amt, phase := g1.phase }],
        activePlayerIndex := mi } :=
      count_ge_two_of_notComplete _ (by simpa using hrc)
    refine ⟨by simpa using hlen, ?_, ?_, ?_, ?_, by simpa [communityOk] using hcomm, ?_, ?_⟩
    · rcases hphase with hp | hp | hp | hp <;> simp [hp]
    · intro _
      simpa [nonFoldedCount] using hcnt2
    · intro _
      rw [show intSum _ = S from hSinit]
      simpa [stackSum] using hcons
    · intro hfin
      exfalso
      rcases hphase with hp | hp | hp | hp <;> (simp only at hfin; rw [hp] at hfin; cases hfin)
    · simpa [betSum] using hpot
    · intro hinit
      have hns := hnn (by simpa using hinit)
      obtain ⟨hnp, hcb⟩ := hns
      exact ⟨by simpa [NNP] using hnp, by simpa using hcb⟩

/-! ## Per-action bookkeeping helpers -/

theorem phase_streets (g : PokerGame) (h1 : g.phase ≠ .setup) (h2 : g.phase ≠ .showdown)
    (h3 : g.phase ≠ .finished) :
    g.phase = .preflop ∨ g.phase = .flop ∨ g.phase = .turn ∨ g.phase = .river := by
  cases hp : g.phase <;> simp_all

theorem sumStacks_set (l : List Player) (i : Nat) (p' : Player) (h : i < l.length) :
    sumStacks (l.set i p') = sumStacks l - (l.getD i emptyPlayer).stack + p'.stack :=
  sum_map_set Player.stack l i p' h

theorem sumTotals_set (l : List Player) (i : Nat) (p' : Player) (h : i < l.length) :
    sumTotals (l.set i p') = sumTotals l - (l.getD i emptyPlayer).totalBetThisHand
      + p'.totalBetThisHand :=
  sum_map_set Player.totalBetThisHand l i p' h

theorem cntNF_set_preserve (l : List Player) (i : Nat) (p' : Player) (h : i < l.length)
    (hf : p'.hasFolded = (l.getD i emptyPlayer).hasFolded) :
    cntNF (l.set i p') = cntNF l := by
  have h2 := filterLen_set (fun p => !p.hasFolded) l i p' h
  simp only [hf] at h2
  unfold cntNF
  split at h2 <;> omega

theorem cntNF_set_fold (l : List Player) (i : Nat) (p' : Player) (h : i < l.length)
    (hold : (l.getD i emptyPlayer).hasFolded = false) (hnew : p'.hasFolded = true) :
    (cntNF (l.set i p') : Int) = (cntNF l : Int) - 1 := by
  have h2 := filterLen_set (fun p => !p.hasFolded) l i p' h
  simp only [hold, hnew] at h2
  norm_num at h2
  unfold cntNF
  omega

theorem NNP_set (l : List Player) (i : Nat) (p' : Player) (hp : NNP l)
    (h3 : 0 ≤ p'.stack ∧ 0 ≤ p'.currentBet ∧ p'.currentBet ≤ p'.totalBetThisHand) :
    NNP (l.set i p') := by
  intro p hmem
  rcases mem_set_cases hmem with hin | hew
  · exact hp p hin
  · subst hew
    exact h3

theorem call_snd (p : Player) (atc : Int) : (p.call atc).2 = min atc p.stack := by
  unfold Player.call
  rw [bet_snd]
  omega

theorem call_stack (p : Player) (atc : Int) :
    (p.call atc).1.stack = p.stack - min atc p.stack := by
  unfold Player.call
  rw [bet_stack]
  omega

theorem call_currentBet (p : Player) (atc : Int) :
    (p.call atc).1.currentBet = p.currentBet + min atc p.stack := by
  unfold Player.call
  rw [bet_currentBet]
  omega

theorem call_total (p : Player) (atc : Int) :
    (p.call atc).1.totalBetThisHand = p.totalBetThisHand + min atc p.stack := by
  unfold Player.call
  rw [bet_total]
  omega

theorem call_hasFolded (p : Player) (atc : Int) : (p.call atc).1.hasFolded = p.hasFolded := by
  unfold Player.call
  rw [bet_hasFolded]

theorem allIn_snd (p : Player) : (p.allIn).2 = p.stack := rfl

theorem allIn_stack (p : Player) : (p.allIn).1.stack = 0 := by
  unfold Player.allIn
  simp only
  rw [bet_stack]
  omega

theorem allIn_currentBet (p : Player) : (p.allIn).1.currentBet = p.currentBet + p.stack := by
  unfold Player.allIn
  simp only
  rw [bet_currentBet]
  omega

theorem allIn_total (p : Player) :
    (p.allIn).1.totalBetThisHand = p.totalBetThisHand + p.stack := by
  unfold Player.allIn
  simp only
  rw [bet_total]
  omega

theorem allIn_hasFolded (p : Player) : (p.allIn).1.hasFolded = p.hasFolded := by
  unfold Player.allIn
  simp only
  rw [bet_hasFolded]

theorem canAct_not_folded (p : Player) (h : p.canAct = true) : p.hasFolded = false := by
  unfold Player.canAct at h
  cases hf : p.hasFolded
  · rfl
  · rw [hf] at h
    simp at h

theorem communityOk_of_eq (g1 g2 : PokerGame) (h1 : g1.phase = g2.phase)
    (h2 : g1.communityCards = g2.communityCards) (h3 : communityOk g2) : communityOk g1 := by
  unfold communityOk at h3 ⊢
  rw [h1, h2]
  exact h3

theorem actionStep_inv (g g1 g' : PokerGame) (p' : Player) (A : Int)
    (e : LogEntry) (t : ActionToken) (amt2 : Int)
    (hlen : g.players.length = 6)
    (hstreets : g.phase = .preflop ∨ g.phase = .flop ∨ g.phase = .turn ∨ g.phase = .river)
    (hfun2 : 2 ≤ nonFoldedCount g)
    (hcons : g.pot + stackSum g = intSum g.initialStacks)
    (hpotEq : g.pot = betSum g)
    (hcomm : communityOk g)
    (hnn : (∀ x ∈ g.initialStacks, 0 ≤ x) → NonnegState g)
    (hlt : g.activePlayerIndex < g.players.length)
    (hPfold : (g.players.getD g.activePlayerIndex emptyPlayer).hasFolded = false)
    (hg1p : g1.players = g.players.set g.activePlayerIndex p')
    (hg1pot : g1.pot = g.pot + A)
    (hg1ph : g1.phase = g.phase)
    (hg1cc : g1.communityCards = g.communityCards)
    (hg1init : g1.initialStacks = g.initialStacks)
    (hp'stack : p'.stack = (g.players.getD g.activePlayerIndex emptyPlayer).stack - A)
    (hp'cb : p'.currentBet = (g.players.getD g.activePlayerIndex emptyPlayer).currentBet + A)
    (hp'tot : p'.totalBetThisHand
        = (g.players.getD g.activePlayerIndex emptyPlayer).totalBetThisHand + A)
    (hnng1 : (∀ x ∈ g.initialStacks, 0 ≤ x) → NonnegState g →
        (0 ≤ p'.stack ∧ 0 ≤ p'.currentBet ∧ p'.currentBet ≤ p'.totalBetThisHand)
        ∧ 0 ≤ g1.currentBet)
    (h : finishAction g1 e t amt2 = some (g', true)) : EngineInv g' := by
  apply finishAction_inv g1 e t amt2 g' (intSum g.initialStacks) ?_ ?_ ?_ ?_ ?_ ?_ ?_ ?_ h
  · rw [hg1p, List.length_set, hlen]
  · rw [hg1ph]
    exact hstreets
  · rw [hg1pot]
    unfold stackSum
    rw [hg1p, sumStacks_set _ _ _ hlt]
    unfold stackSum at hcons
    unfold sumStacks at hcons ⊢
    omega
  · rw [hg1init]
  · rw [hg1pot]
    unfold betSum
    rw [hg1p, sumTotals_set _ _ _ hlt]
    unfold betSum at hpotEq
    unfold sumTotals at hpotEq ⊢
    omega
  · exact communityOk_of_eq g1 g hg1ph hg1cc hcomm
  · unfold nonFoldedCount
    rw [hg1p]
    unfold nonFoldedCount at hfun2
    cases hpf : p'.hasFolded with
    | false =>
      have := cntNF_set_preserve g.players g.activePlayerIndex p' hlt
        (by rw [hpf, hPfold])
      omega
    | true =>
      have := cntNF_set_fold g.players g.activePlayerIndex p' hlt hPfold hpf
      omega
  · intro hi
    rw [hg1init] at hi
    have hns := hnn hi
    obtain ⟨htrip, hcb1⟩ := hnng1 hi hns
    constructor
    · show NNP g1.players
      rw [hg1p]
      exact NNP_set _ _ _ hns.1 htrip
    · exact hcb1

theorem processAction_inv (g g' : PokerGame) (a : PlayerAction) (amt : Option Int)
    (hInv : EngineInv g) (hnf : g.phase ≠ .finished)
    (h : processAction g a amt = some (g', true)) : EngineInv g' := by
  obtain ⟨hlen, ⟨hps, hpss⟩, hfun, hcons, _hconsF, hcomm, hpotEq, hnn⟩ := hInv
  have hstreets := phase_streets g hps hpss hnf
  have hfun2 := hfun hnf
  simp only [processAction] at h
  split at h
  case isTrue hno => simp at h
  case isFalse hcan =>
    have hact : (g.players.getD g.activePlayerIndex emptyPlayer).canAct = true := by
      revert hcan
      cases (g.players.getD g.activePlayerIndex emptyPlayer).canAct <;> simp
    have hlt := active_lt_of_canAct g hact
    have hPfold := canAct_not_folded _ hact
    generalize hG : (if g.isFirstAction = true then { g with isFirstAction := false } else g) = G at h
    have hGs : G.players = g.players ∧ G.pot = g.pot ∧ G.currentBet = g.currentBet
        ∧ G.activePlayerIndex = g.activePlayerIndex ∧ G.phase = g.phase
        ∧ G.communityCards = g.communityCards ∧ G.initialStacks = g.initialStacks := by
      rw [← hG]
      cases hfa : g.isFirstAction <;> simp [hfa]
    obtain ⟨hGpl, hGpot, hGcb, hGidx, hGph, hGcc, hGinit⟩ := hGs
    have hPmem : (g.players.getD g.activePlayerIndex emptyPlayer) ∈ g.players :=
      getD_mem _ _ _ hlt
    split at h
    case h_1 =>
      -- FOLD
      refine actionStep_inv g _ g' ((g.players.getD g.activePlayerIndex emptyPlayer).fold) 0
        _ _ _ hlen hstreets hfun2 (hcons hnf) hpotEq hcomm hnn hlt
        hPfold ?_ ?_ ?_ ?_ ?_ ?_ ?_ ?_ ?_ h
      · rw [hGpl, hGidx]
      · rw [hGpot]; ring
      · exact hGph
      · exact hGcc
      · exact hGinit
      · simp [Player.fold]
      · simp [Player.fold]
      · simp [Player.fold]
      · intro hi hns
        have h3 := hns.1 _ hPmem
        constructor
        · simpa [Player.fold] using h3
        · show 0 ≤ G.currentBet
          rw [hGcb]
          exact hns.2
    case h_2 =>
      -- CHECK
      split at h
      next => simp at h
      next hguard =>
        refine actionStep_inv g _ g'
          ((g.players.getD g.activePlayerIndex emptyPlayer).check) 0 _ _ _ hlen hstreets hfun2 (hcons hnf) hpotEq hcomm hnn hlt
          hPfold ?_ ?_ ?_ ?_ ?_ ?_ ?_ ?_ ?_ h
        · rw [hGpl, hGidx]
        · rw [hGpot]; ring
        · exact hGph
        · exact hGcc
        · exact hGinit
        · simp [Player.check]
        · simp [Player.check]
        · simp [Player.check]
        · intro hi hns
          have h3 := hns.1 _ hPmem
          constructor
          · simpa [Player.check] using h3
          · show 0 ≤ G.currentBet
            rw [hGcb]
            exact hns.2
    case h_3 =>
      -- CALL
      split at h
      next => simp at h
      next hguard =>
        rcases hpc : (g.players.getD g.activePlayerIndex emptyPlayer).call
            (G.currentBet - (g.players.getD g.activePlayerIndex emptyPlayer).currentBet)
          with ⟨p1, A1⟩
        rw [hpc] at h
        have hp1 : p1 = ((g.players.getD g.activePlayerIndex emptyPlayer).call
            (G.currentBet - (g.players.getD g.activePlayerIndex emptyPlayer).currentBet)).1 := by
          rw [hpc]
        have hA1 : A1 = ((g.players.getD g.activePlayerIndex emptyPlayer).call
            (G.currentBet - (g.players.getD g.activePlayerIndex emptyPlayer).currentBet)).2 := by
          rw [hpc]
        refine actionStep_inv g _ g' p1 A1 _ _ _ hlen hstreets hfun2 (hcons hnf) hpotEq hcomm hnn hlt
          hPfold ?_ ?_ ?_ ?_ ?_ ?_ ?_ ?_ ?_ h
        · rw [hGpl, hGidx]
        · rw [hGpot]
        · exact hGph
        · exact hGcc
        · exact hGinit
        · rw [hp1, hA1, call_stack, call_snd]
        · rw [hp1, hA1, call_currentBet, call_snd]
        · rw [hp1, hA1, call_total, call_snd]
        · intro hi hns
          have h3 := hns.1 _ hPmem
          have hcb0 := hns.2
          rw [hGcb] at hguard
          constructor
          · rw [hp1, call_stack, call_currentBet, call_total]
            omega
          · show 0 ≤ G.currentBet
            rw [hGcb]
            exact hcb0
    case h_4 =>
      -- BET
      split at h
      next => simp at h
      next hg0 =>
        split at h
        next => simp at h
        next aopt a =>
          split at h
          next => simp at h
          next hga =>
            obtain ⟨hga1, hga2⟩ := not_or.mp hga
            refine actionStep_inv g _ g'
              ((g.players.getD g.activePlayerIndex emptyPlayer).bet a).1
              ((g.players.getD g.activePlayerIndex emptyPlayer).bet a).2
              _ _ _ hlen hstreets hfun2 (hcons hnf) hpotEq hcomm hnn hlt hPfold
              ?_ ?_ ?_ ?_ ?_ ?_ ?_ ?_ ?_ h
            · rw [hGpl, hGidx]
            · rw [hGpot]
            · exact hGph
            · exact hGcc
            · exact hGinit
            · rw [bet_stack, bet_snd]
            · rw [bet_currentBet, bet_snd]
            · rw [bet_total, bet_snd]
            · intro hi hns
              have h3 := hns.1 _ hPmem
              unfold BIG_BLIND at hga2
              constructor
              · rw [bet_stack, bet_currentBet, bet_total]
                omega
              · show 0 ≤ ((g.players.getD g.activePlayerIndex emptyPlayer).bet a).1.currentBet
                rw [bet_currentBet]
                omega
    case h_5 =>
      -- RAISE
      split at h
      next => simp at h
      next hne0 =>
        split at h
        next => simp at h
        next aopt a =>
          split at h
          next => simp at h
          next hga =>
            obtain ⟨hga1, hga2⟩ := not_or.mp hga
            refine actionStep_inv g _ g'
              ((g.players.getD g.activePlayerIndex emptyPlayer).bet
                (a - (g.players.getD g.activePlayerIndex emptyPlayer).currentBet)).1
              ((g.players.getD g.activePlayerIndex emptyPlayer).bet
                (a - (g.players.getD g.activePlayerIndex emptyPlayer).currentBet)).2
              _ _ _ hlen hstreets hfun2 (hcons hnf) hpotEq hcomm hnn hlt hPfold
              ?_ ?_ ?_ ?_ ?_ ?_ ?_ ?_ ?_ h
            · rw [hGpl, hGidx]
            · rw [hGpot]
            · exact hGph
            · exact hGcc
            · exact hGinit
            · rw [bet_stack, bet_snd]
            · rw [bet_currentBet, bet_snd]
            · rw [bet_total, bet_snd]
            · intro hi hns
              have h3 := hns.1 _ hPmem
              have hcb0 := hns.2
              rw [hGcb] at hne0 hga2
              constructor
              · rw [bet_stack, bet_currentBet, bet_total]
                omega
              · show 0 ≤ ((g.players.getD g.activePlayerIndex emptyPlayer).bet
                    (a - (g.players.getD g.activePlayerIndex emptyPlayer).currentBet)).1.currentBet
                rw [bet_currentBet]
                omega
    case h_6 =>
      -- ALL_IN
      refine actionStep_inv g _ g'
        ((g.players.getD g.activePlayerIndex emptyPlayer).allIn).1
        ((g.players.getD g.activePlayerIndex emptyPlayer).allIn).2
        _ _ _ hlen hstreets hfun2 (hcons hnf) hpotEq hcomm hnn hlt hPfold
        ?_ ?_ ?_ ?_ ?_ ?_ ?_ ?_ ?_ h
      · rw [hGpl, hGidx]
      · rw [hGpot]
      · exact hGph
      · exact hGcc
      · exact hGinit
      · rw [allIn_stack, allIn_snd]
        ring
      · rw [allIn_currentBet, allIn_snd]
      · rw [allIn_total, allIn_snd]
      · intro hi hns
        have h3 := hns.1 _ hPmem
        have hcb0 := hns.2
        constructor
        · rw [allIn_stack, allIn_currentBet, allIn_total]
          omega
        · show 0 ≤ (if G.currentBet <
              ((g.players.getD g.activePlayerIndex emptyPlayer).allIn).1.currentBet
            then ((g.players.getD g.activePlayerIndex emptyPlayer).allIn).1.currentBet
            else G.currentBet)
          rw [allIn_currentBet, hGcb]
          split <;> omega

/-! ## Hand start establishes the invariant -/

theorem findNext_lt (l : List Player) (i j : Nat) (hpos : 0 < l.length)
    (h : findNextPlayerWithChips l i = some j) : j < l.length := by
  simp only [findNextPlayerWithChips] at h
  split at h
  next k hk =>
    cases h
    exact Nat.mod_lt _ hpos
  next => cases h

theorem cntNF_map_reset (l : List Player) : cntNF (l.map Player.reset) = l.length := by
  unfold cntNF
  induction l with
  | nil => rfl
  | cons x xs ih => simpa [Player.reset, List.filter_cons] using ih

theorem sumTotals_map_reset (l : List Player) : sumTotals (l.map Player.reset) = 0 := by
  unfold sumTotals
  induction l with
  | nil => rfl
  | cons x xs ih => simpa [Player.reset] using ih

theorem sumStacks_map_reset (l : List Player) : sumStacks (l.map Player.reset) = sumStacks l := by
  unfold sumStacks
  induction l with
  | nil => rfl
  | cons x xs ih => simpa [Player.reset] using ih

theorem stacks_zipWith (l : List Player) (s : List Int) (h : l.length = s.length) :
    (List.zipWith (fun (p : Player) (s : Int) => { p with stack := s }) l s).map Player.stack
      = s := by
  induction l generalizing s with
  | nil =>
    cases s with
    | nil => rfl
    | cons y ys => simp at h
  | cons x xs ih =>
    cases s with
    | nil => simp at h
    | cons y ys =>
      simp only [List.length_cons, Nat.succ.injEq] at h
      simpa using ih ys h

theorem zipWith_stack_mem (l : List Player) (s : List Int) (p : Player)
    (hmem : p ∈ List.zipWith (fun (p : Player) (s : Int) => { p with stack := s }) l s) :
    ∃ x ∈ s, p.stack = x := by
  induction l generalizing s with
  | nil => simp at hmem
  | cons x xs ih =>
    cases s with
    | nil => simp at hmem
    | cons y ys =>
      simp only [List.zipWith_cons_cons, List.mem_cons] at hmem
      rcases hmem with h1 | h1
      · exact ⟨y, List.mem_cons_self _ _, by rw [h1]⟩
      · obtain ⟨x2, hx2, he⟩ := ih ys h1
        exact ⟨x2, List.mem_cons_of_mem _ hx2, he⟩

theorem NNP_map_reset (l : List Player) (h : ∀ p ∈ l, 0 ≤ p.stack) :
    NNP (l.map Player.reset) := by
  intro p hmem
  obtain ⟨q, hq, he⟩ := List.mem_map.mp hmem
  have := h q hq
  subst he
  simp [Player.reset]
  omega

theorem postBlinds_facts (g : PokerGame)
    (hsb : g.smallBlindIndex < g.players.length)
    (hbb : g.bigBlindIndex < g.players.length) :
    (postBlinds g).players.length = g.players.length
    ∧ (postBlinds g).pot + sumStacks (postBlinds g).players = g.pot + sumStacks g.players
    ∧ (postBlinds g).pot - sumTotals (postBlinds g).players = g.pot - sumTotals g.players
    ∧ cntNF (postBlinds g).players = cntNF g.players
    ∧ (postBlinds g).phase = g.phase
    ∧ (postBlinds g).communityCards = g.communityCards
    ∧ (postBlinds g).initialStacks = g.initialStacks
    ∧ (postBlinds g).currentBet = BIG_BLIND
    ∧ (NNP g.players → NNP (postBlinds g).players) := by
  unfold postBlinds
  simp only
  have hbb2 :
      g.bigBlindIndex
        < (g.players.set g.smallBlindIndex
            ((g.players.getD g.smallBlindIndex emptyPlayer).bet SMALL_BLIND).1).length := by
    rw [List.length_set]
    exact hbb
  refine ⟨by simp, ?_, ?_, ?_, by simp, by simp, by simp, by simp, ?_⟩
  · rw [sumStacks_set _ _ _ hbb2, sumStacks_set _ _ _ hsb, bet_stack, bet_stack, bet_snd, bet_snd]
    omega
  · rw [sumTotals_set _ _ _ hbb2, sumTotals_set _ _ _ hsb, bet_total, bet_total, bet_snd, bet_snd]
    omega
  · rw [cntNF_set_preserve _ _ _ hbb2 (bet_hasFolded _ _), cntNF_set_preserve _ _ _ hsb
      (bet_hasFolded _ _)]
  · intro hnp
    have hP := hnp (g.players.getD g.smallBlindIndex emptyPlayer)
      (getD_mem g.players g.smallBlindIndex emptyPlayer hsb)
    have h1 : NNP (g.players.set g.smallBlindIndex
        ((g.players.getD g.smallBlindIndex emptyPlayer).bet SMALL_BLIND).1) := by
      apply NNP_set _ _ _ hnp
      rw [bet_stack, bet_currentBet, bet_total]
      unfold SMALL_BLIND
      omega
    have hQ := h1 ((g.players.set g.smallBlindIndex
        ((g.players.getD g.smallBlindIndex emptyPlayer).bet SMALL_BLIND).1).getD
          g.bigBlindIndex emptyPlayer)
      (getD_mem _ g.bigBlindIndex emptyPlayer hbb2)
    apply NNP_set _ _ _ h1
    rw [bet_stack, bet_currentBet, bet_total]
    unfold BIG_BLIND
    omega

theorem setActivePlayer_players (g : PokerGame) : (setActivePlayer g).players = g.players := by
  obtain ⟨i, hi⟩ := setActivePlayer_shape g
  rw [hi]

theorem setActivePlayer_pot (g : PokerGame) : (setActivePlayer g).pot = g.pot := by
  obtain ⟨i, hi⟩ := setActivePlayer_shape g
  rw [hi]

theorem setActivePlayer_currentBet (g : PokerGame) :
    (setActivePlayer g).currentBet = g.currentBet := by
  obtain ⟨i, hi⟩ := setActivePlayer_shape g
  rw [hi]

theorem setActivePlayer_phase (g : PokerGame) : (setActivePlayer g).phase = g.phase := by
  obtain ⟨i, hi⟩ := setActivePlayer_shape g
  rw [hi]

theorem setActivePlayer_communityCards (g : PokerGame) :
    (setActivePlayer g).communityCards = g.communityCards := by
  obtain ⟨i, hi⟩ := setActivePlayer_shape g
  rw [hi]

theorem setActivePlayer_initialStacks (g : PokerGame) :
    (setActivePlayer g).initialStacks = g.initialStacks := by
  obtain ⟨i, hi⟩ := setActivePlayer_shape g
  rw [hi]

theorem startNewHand_inv (g0 g : PokerGame) (stackCfg : List Int) (shuffledDeck : List Card)
    (hset : setPlayerStacks initialGame stackCfg = some g0)
    (h : startNewHand g0 shuffledDeck = some g) : EngineInv g := by
  simp only [setPlayerStacks] at hset
  split at hset
  · cases hset
  next hlen6 =>
    cases hset
    have hl6 : stackCfg.length = 6 := by omega
    have hlpl : (List.zipWith (fun (p : Player) (s : Int) => { p with stack := s })
        initialGame.players stackCfg).length = 6 := by
      simp [initialGame, hl6]
    simp only [startNewHand] at h
    split at h
    next => cases h
    next g1 hr =>
      simp only [resetForNewHand] at hr
      split at hr
      next => cases hr
      next d hd1 =>
        split at hr
        next => cases hr
        next sb hsb1 =>
          split at hr
          next => cases hr
          next bb hbb1 =>
            cases hr
            split at h
            next => cases h
            next g3 hd =>
              cases h
              have hsblt := findNext_lt _ d sb (by simp [hlpl]) hsb1
              have hbblt := findNext_lt _ sb bb (by simp [hlpl]) hbb1
              set L : PokerGame :=
                { deck := shuffledDeck,
                  players := List.map Player.reset
                    (List.zipWith (fun (p : Player) (s : Int) => { p with stack := s })
                      initialGame.players stackCfg),
                  communityCards := [], pot := 0, currentBet := 0,
                  activePlayerIndex := initialGame.activePlayerIndex,
                  dealerIndex := d, smallBlindIndex := sb, bigBlindIndex := bb,
                  phase := GamePhase.setup, actionLog := [], gameActions := [],
                  isFirstAction := true, initialStacks := stackCfg } with hL
              have hLplen : L.players.length = 6 := by
                rw [hL]
                simpa using hlpl
              obtain ⟨pb1, pb2, pb3, pb4, pb5, pb6, pb7, pb8, pb9⟩ :=
                postBlinds_facts L (by rw [hL]; simpa using hsblt) (by rw [hL]; simpa using hbblt)
              unfold dealHoleCards at hd
              obtain ⟨dk, pl, hg3, hchips⟩ := dealHoleCardsAux_shape _ _ _ hd
              subst hg3
              have hLpot : L.pot = 0 := by rw [hL]
              have hLinit : L.initialStacks = stackCfg := by rw [hL]
              have hLplayers : L.players = List.map Player.reset
                  (List.zipWith (fun (p : Player) (s : Int) => { p with stack := s })
                    initialGame.players stackCfg) := by rw [hL]
              have hplen : pl.length = 6 := by
                have h1 := length_eq_of_chips hchips
                rw [h1, pb1, hLplen]
              have hsst : sumStacks pl = sumStacks (postBlinds L).players :=
                sumStacks_eq_of_chips hchips
              have htot : sumTotals pl = sumTotals (postBlinds L).players :=
                sumTotals_eq_of_chips hchips
              have hcnt : cntNF pl = cntNF (postBlinds L).players :=
                cntNF_eq_of_chips hchips
              have hLstacks : sumStacks L.players = intSum stackCfg := by
                rw [hLplayers, sumStacks_map_reset]
                unfold sumStacks intSum
                rw [stacks_zipWith _ _ (by simp [initialGame, hl6])]
              have hLtotals : sumTotals L.players = 0 := by
                rw [hLplayers]
                exact sumTotals_map_reset _
              have hLcnt : cntNF L.players = 6 := by
                rw [hLplayers, cntNF_map_reset]
                exact hlpl
              refine ⟨?_, ?_, ?_, ?_, ?_, ?_, ?_, ?_⟩
              · simp only [setActivePlayer_players]
                simpa using hplen
              · constructor
                · simp only [setActivePlayer_phase]
                  intro hx
                  exact nomatch hx
                · simp only [setActivePlayer_phase]
                  intro hx
                  exact nomatch hx
              · intro _
                show 2 ≤ nonFoldedCount _
                unfold nonFoldedCount
                simp only [setActivePlayer_players]
                show 2 ≤ cntNF pl
                rw [hcnt, pb4, hLcnt]
                omega
              · intro _
                show _ + stackSum _ = intSum _
                unfold stackSum
                simp only [setActivePlayer_pot, setActivePlayer_players,
                  setActivePlayer_initialStacks]
                show (postBlinds L).pot + sumStacks pl = intSum (postBlinds L).initialStacks
                rw [hsst, pb7, hLinit, ← hLstacks]
                omega
              · intro hx
                exfalso
                rw [show (_ : GamePhase) = GamePhase.preflop from setActivePlayer_phase _] at hx
                exact nomatch hx
              · show communityOk _
                unfold communityOk
                simp only [setActivePlayer_phase, setActivePlayer_communityCards]
                show List.length (postBlinds L).communityCards = 0
                rw [pb6, hL]
                rfl
              · show _ = betSum _
                unfold betSum
                simp only [setActivePlayer_pot, setActivePlayer_players]
                show (postBlinds L).pot = sumTotals pl
                rw [htot]
                omega
              · intro hi
                simp only [setActivePlayer_initialStacks] at hi
                have hi2 : ∀ x ∈ stackCfg, (0:Int) ≤ x := by
                  rw [pb7, hLinit] at hi
                  exact hi
                constructor
                · show NNP _
                  simp only [setActivePlayer_players]
                  show NNP pl
                  apply NNP_of_chips hchips.symm
                  apply pb9
                  rw [hLplayers]
                  apply NNP_map_reset
                  intro p hp
                  obtain ⟨x, hx, he2⟩ := zipWith_stack_mem _ _ _ hp
                  rw [he2]
                  exact hi2 x hx
                · show 0 ≤ _
                  simp only [setActivePlayer_currentBet]
                  show 0 ≤ (postBlinds L).currentBet
                  rw [pb8]
                  unfold BIG_BLIND
                  omega

/-- The inductive invariant holds in every state of a hand. -/
theorem reachable_inv (g : PokerGame) (h : ReachableInHand g) : EngineInv g := by
  induction h with
  | start stackCfg shuffledDeck g0 g hset hstart =>
    exact startNewHand_inv g0 g stackCfg shuffledDeck hset hstart
  | step g g' a amount hr hnf hpa ih =>
    exact processAction_inv g g' a amount ih hnf hpa

/-! ## Rejections -/

theorem finishAction_not_false (g1 : PokerGame) (e : LogEntry) (t : ActionToken) (amt : Int)
    (g' : PokerGame) (h : finishAction g1 e t amt = some (g', false)) : False := by
  simp only [finishAction] at h
  split at h
  · split at h
    · cases h
    · cases h
  · cases h

/-! ## The claims -/

/-- C1 (counterexample): in the concrete hand where five seats fold, the hand is
FINISHED and `pot + Σ stacks = 6060` while `Σ initialStacks = 6000`: the claimed
conservation equation fails after the action that finishes the hand, because
settlement adds the pot to the winner's stack without zeroing the `pot` field. -/
theorem c1_pot_not_cleared_counterexample :
    foldOutRun.map (fun g => (g.phase, g.pot + stackSum g, intSum g.initialStacks))
      = some (GamePhase.finished, 6060, 6000) ∧ (6060 : Int) ≠ 6000 := by
  constructor
  · rfl
  · decide

/-- C1 (amended): in every state of a hand driven by `setPlayerStacks`,
`startNewHand` and accepted actions, `pot + Σ stacks = Σ initialStacks` holds
while the hand is not FINISHED; after the action that finishes the hand
`Σ stacks = Σ initialStacks` alone holds (the pot field keeps its final value,
so `pot + Σ stacks` exceeds the initial total by the pot). -/
theorem c1_chip_conservation (g : PokerGame) (h : ReachableInHand g) :
    (g.phase ≠ .finished → g.pot + stackSum g = intSum g.initialStacks)
    ∧ (g.phase = .finished → stackSum g = intSum g.initialStacks) :=
  ⟨(reachable_inv g h).conserve, (reachable_inv g h).conserveFin⟩

/-- Witness for C1 at the concrete just-started 6×1000 hand. -/
theorem c1_chip_conservation_witness :
    afterStart.pot + stackSum afterStart = intSum afterStart.initialStacks :=
  (c1_chip_conservation afterStart
    (ReachableInHand.start (List.replicate 6 1000) freshDeck configuredOnly afterStart
      rfl rfl)).1 (by decide)

/-- C6 (counterexample): the concrete hand that ends by five preflop folds is
FINISHED with zero community cards, not the five the claim demands for
FINISHED hands. -/
theorem c6_community_counterexample :
    foldOutRun.map (fun g => (g.phase, g.communityCards.length))
      = some (GamePhase.finished, 0) ∧ (0 : Nat) ≠ 5 := by
  constructor
  · rfl
  · decide

/-- C6 (amended): in every state of a hand the community-card count is 0 in
SETUP/PREFLOP, 3 on the FLOP, 4 on the TURN and 5 on the RIVER or at SHOWDOWN;
a FINISHED hand keeps the count it had when it ended — 0, 3 or 4 after an
early fold-out, or 5 after a showdown. -/
theorem c6_phase_community (g : PokerGame) (h : ReachableInHand g) :
    ((g.phase = .setup ∨ g.phase = .preflop) → g.communityCards.length = 0)
    ∧ (g.phase = .flop → g.communityCards.length = 3)
    ∧ (g.phase = .turn → g.communityCards.length = 4)
    ∧ ((g.phase = .river ∨ g.phase = .showdown) → g.communityCards.length = 5)
    ∧ (g.phase = .finished →
        g.communityCards.length = 0 ∨ g.communityCards.length = 3 ∨
        g.communityCards.length = 4 ∨ g.communityCards.length = 5) := by
  have hc := (reachable_inv g h).community
  unfold communityOk at hc
  cases hph : g.phase
  all_goals rw [hph] at hc
  all_goals refine ⟨fun hx => ?_, fun hx => ?_, fun hx => ?_, fun hx => ?_, fun hx => ?_⟩
  all_goals first
    | exact hc
    | exact nomatch hx
    | (rcases hx with hx | hx <;> exact nomatch hx)

/-- Witness for C6 at the concrete just-started 6×1000 hand (PREFLOP, no
community cards). -/
theorem c6_phase_community_witness : afterStart.communityCards.length = 0 :=
  (c6_phase_community afterStart
    (ReachableInHand.start (List.replicate 6 1000) freshDeck configuredOnly afterStart
      rfl rfl)).1 (Or.inr (by decide))

/-- C2 (counterexample): right after `setPlayerStacks` (phase SETUP) the
valid-actions list is empty, yet `processAction` accepts a FOLD (returns true)
— `processAction` never checks the phase, only `canAct`. -/
theorem c2_legality_counterexample :
    getValidActions configuredOnly = []
    ∧ (processAction configuredOnly .fold none).map Prod.snd = some true
    ∧ PlayerAction.fold ∉ getValidActions configuredOnly := by
  refine ⟨rfl, rfl, ?_⟩
  intro hx
  rw [show getValidActions configuredOnly = [] from rfl] at hx
  cases hx

/-- C2 (amended): when the active seat cannot act, `getValidActions` is empty
and `processAction` rejects every action leaving the state entirely unchanged;
but an action outside a non-empty valid-actions list is not otherwise
guaranteed to be rejected (for example any action during SETUP or FINISHED
with an actionable seat, or an under-funded CALL/BET/RAISE, is processed). -/
theorem c2_legality (g : PokerGame) (a : PlayerAction) (amt : Option Int)
    (h : (g.players.getD g.activePlayerIndex emptyPlayer).canAct = false) :
    getValidActions g = [] ∧ processAction g a amt = some (g, false) := by
  have h2 : (g.players[g.activePlayerIndex]?.getD emptyPlayer).canAct = false := by
    simpa using h
  constructor
  · simp [getValidActions, h2]
  · simp [processAction, h2]

/-- Witness for C2 at the all-broke table. -/
theorem c2_legality_witness :
    getValidActions brokeGame = []
    ∧ processAction brokeGame .fold none = some (brokeGame, false) :=
  c2_legality brokeGame .fold none (by decide)

/-- C9: `Player.bet` commits exactly `min(amount, stack)`, never drives a stack
below zero, and (when the seat was not already all-in) sets the all-in flag
exactly when the resulting stack is zero; `call`/`allIn` commit the same capped
amounts; and every seat's stack stays non-negative in every state of a hand
started from non-negative stacks. -/
theorem c9_stack_nonneg :
    (∀ (p : Player) (a : Int),
      (p.bet a).2 = min a p.stack
      ∧ (0 ≤ p.stack → 0 ≤ (p.bet a).1.stack)
      ∧ (p.isAllIn = false → ((p.bet a).1.isAllIn = true ↔ (p.bet a).1.stack = 0)))
    ∧ (∀ (p : Player) (atc : Int), (p.call atc).2 = min atc p.stack)
    ∧ (∀ p : Player, (p.allIn).2 = p.stack)
    ∧ (∀ g : PokerGame, ReachableInHand g → (∀ x ∈ g.initialStacks, 0 ≤ x) →
        ∀ p ∈ g.players, 0 ≤ p.stack) := by
  refine ⟨?_, ?_, ?_, ?_⟩
  · intro p a
    refine ⟨bet_snd p a, fun _ => bet_stack_nonneg p a, fun hall => ?_⟩
    rw [bet_isAllIn, bet_stack, hall]
    simp
  · intro p atc
    exact call_snd p atc
  · intro p
    rfl
  · intro g hr hi p hp
    exact (((reachable_inv g hr).nonneg hi).1 p hp).1

/-- Witness for C9: an under-funded bet (80 from a 50-chip stack) leaves a
non-negative (zero) stack, and the started 6×1000 hand has only non-negative
stacks. -/
theorem c9_stack_nonneg_witness :
    (0 ≤ (({ emptyPlayer with stack := 50 } : Player).bet 80).1.stack)
    ∧ (∀ p ∈ afterStart.players, 0 ≤ p.stack) :=
  ⟨(c9_stack_nonneg.1 { emptyPlayer with stack := 50 } 80).2.1 (by decide),
   c9_stack_nonneg.2.2.2 afterStart
     (ReachableInHand.start (List.replicate 6 1000) freshDeck configuredOnly afterStart
       rfl rfl) (by decide)⟩

theorem set_out_of_range {α : Type} (l : List α) (i : Nat) (a : α) (h : l.length ≤ i) :
    l.set i a = l := by
  induction l generalizing i with
  | nil => rfl
  | cons x xs ih =>
    cases i with
    | zero => simp at h
    | succ n =>
      simp only [List.length_cons, Nat.succ_le_succ_iff] at h
      simp [List.set, ih n h]

theorem getD_streetReset_cb (l : List Player) (i : Nat) :
    ((l.map fun p : Player => { p with hasActed := false, currentBet := 0 }).getD i
      emptyPlayer).currentBet = 0 := by
  induction l generalizing i with
  | nil => rfl
  | cons x xs ih =>
    cases i with
    | zero => rfl
    | succ n => simpa [List.getD] using ih n

theorem getD_set_stack_cb (l : List Player) (w i : Nat) (s : Int)
    (hcb : ∀ j, (l.getD j emptyPlayer).currentBet = 0) :
    ((l.set w { l.getD w emptyPlayer with stack := s }).getD i emptyPlayer).currentBet = 0 := by
  rcases eq_or_ne w i with rfl | hne
  · by_cases hlt : w < l.length
    · rw [getD_set_self _ _ _ _ hlt]
      exact hcb w
    · rw [set_out_of_range _ _ _ (by omega)]
      exact hcb w
  · rw [getD_set_ne _ _ _ _ _ hne]
    exact hcb i

theorem advanceTail_players (g : PokerGame) : (advanceTail g).players = g.players := by
  obtain ⟨i, al, hat⟩ := advanceTail_shape g
  rw [hat]

theorem advanceTail_currentBet (g : PokerGame) : (advanceTail g).currentBet = g.currentBet := by
  obtain ⟨i, al, hat⟩ := advanceTail_shape g
  rw [hat]

theorem completion_cb_zero (g g' : PokerGame) (h : processHandCompletion g = some g')
    (hcb0 : g.currentBet = 0) (hall : ∀ j, (g.players.getD j emptyPlayer).currentBet = 0) :
    g'.currentBet = 0 ∧ ∀ i, (g'.players.getD i emptyPlayer).currentBet = 0 := by
  unfold processHandCompletion at h
  split at h
  next => cases h
  next w hw =>
    cases h
    exact ⟨hcb0, fun i => getD_set_stack_cb _ w i _ hall⟩

theorem advance_cb_zero (g g' : PokerGame) (h : advanceToNextPhase g = some g') :
    g'.currentBet = 0 ∧ ∀ i, (g'.players.getD i emptyPlayer).currentBet = 0 := by
  simp only [advanceToNextPhase] at h
  split at h
  · exact completion_cb_zero _ _ h rfl (fun j => getD_streetReset_cb _ j)
  · split at h
    · rcases hd : dealFlop { g with
          players := g.players.map fun p : Player => { p with hasActed := false, currentBet := 0 },
          currentBet := 0 } with _ | g5
      · rw [hd] at h; cases h
      · rw [hd] at h
        cases h
        obtain ⟨dk, cs, lg, ga, he5, _⟩ := dealFlop_shape _ _ hd
        subst he5
        rw [advanceTail_currentBet]
        constructor
        · rfl
        · intro i
          rw [advanceTail_players]
          exact getD_streetReset_cb _ i
    · rcases hd : dealTurn { g with
          players := g.players.map fun p : Player => { p with hasActed := false, currentBet := 0 },
          currentBet := 0 } with _ | g5
      · rw [hd] at h; cases h
      · rw [hd] at h
        cases h
        obtain ⟨dk, cs, lg, ga, he5, _⟩ := dealTurn_shape _ _ hd
        subst he5
        rw [advanceTail_currentBet]
        constructor
        · rfl
        · intro i
          rw [advanceTail_players]
          exact getD_streetReset_cb _ i
    · rcases hd : dealRiver { g with
          players := g.players.map fun p : Player => { p with hasActed := false, currentBet := 0 },
          currentBet := 0 } with _ | g5
      · rw [hd] at h; cases h
      · rw [hd] at h
        cases h
        obtain ⟨dk, cs, lg, ga, he5, _⟩ := dealRiver_shape _ _ hd
        subst he5
        rw [advanceTail_currentBet]
        constructor
        · rfl
        · intro i
          rw [advanceTail_players]
          exact getD_streetReset_cb _ i
    · unfold processShowdown at h
      exact completion_cb_zero _ _ h rfl (fun j => getD_streetReset_cb _ j)
    · cases h
      rw [advanceTail_currentBet]
      constructor
      · rfl
      · intro i
        rw [advanceTail_players]
        exact getD_streetReset_cb _ i

theorem raise_sets_cb (g g' : PokerGame) (amt : Option Int)
    (h : processAction g .raise amt = some (g', true)) :
    g'.currentBet = (g'.players.getD g.activePlayerIndex emptyPlayer).currentBet := by
  simp only [processAction] at h
  split at h
  · simp at h
  next hcan =>
    have hact : (g.players.getD g.activePlayerIndex emptyPlayer).canAct = true := by
      revert hcan
      cases (g.players.getD g.activePlayerIndex emptyPlayer).canAct <;> simp
    have hlt := active_lt_of_canAct g hact
    generalize hG : (if g.isFirstAction = true then { g with isFirstAction := false } else g)
      = G at h
    have hGpl : G.players = g.players := by
      rw [← hG]
      cases hfa : g.isFirstAction <;> simp [hfa]
    have hGidx : G.activePlayerIndex = g.activePlayerIndex := by
      rw [← hG]
      cases hfa : g.isFirstAction <;> simp [hfa]
    split at h
    next => simp at h
    next hne0 =>
      split at h
      next => simp at h
      next aopt a =>
        split at h
        next => simp at h
        next hga =>
          simp only [finishAction] at h
          obtain ⟨mi, hmi⟩ := moveToNextPlayer_shape _
          rw [hmi] at h
          split at h
          next hrc =>
            cases ha : advanceToNextPhase _
            · rw [ha] at h; cases h
            · rw [ha] at h
              cases h
              obtain ⟨hz1, hz2⟩ := advance_cb_zero _ _ ha
              rw [hz1, hz2]
          next hrc =>
            cases h
            have hltG : G.activePlayerIndex < G.players.length := by
              rw [hGidx, hGpl]
              exact hlt
            show ((g.players.getD g.activePlayerIndex emptyPlayer).bet
                (a - (g.players.getD g.activePlayerIndex emptyPlayer).currentBet)).1.currentBet
              = ((G.players.set G.activePlayerIndex
                  ((g.players.getD g.activePlayerIndex emptyPlayer).bet
                    (a - (g.players.getD g.activePlayerIndex emptyPlayer).currentBet)).1).getD
                  g.activePlayerIndex emptyPlayer).currentBet
            rw [← hGidx, getD_set_self _ _ _ _ hltG]

/-- C10: after every accepted RAISE the table's `currentBet` equals the raising
seat's resulting street bet; consequently, in the concrete reachable state
where seat 5 holds 50 chips and raises "to 300" over a 200 bet, the accepted
raise LOWERS `currentBet` from 200 to 50 (the seat's stack, 50, is less than
300 minus its street bet 0). -/
theorem c10_underfunded_raise :
    (∀ (g g' : PokerGame) (amt : Option Int),
      processAction g .raise amt = some (g', true) →
      g'.currentBet = (g'.players.getD g.activePlayerIndex emptyPlayer).currentBet)
    ∧ raiseSetup.map (fun g => (g.currentBet, g.activePlayerIndex,
        (g.players.getD 5 emptyPlayer).stack,
        (g.players.getD 5 emptyPlayer).currentBet)) = some (200, 5, 50, 0)
    ∧ raiseShort.map (fun r => (r.2, r.1.currentBet)) = some (true, 50)
    ∧ (50 : Int) < 300 - 0 ∧ (50 : Int) < 200 := by
  refine ⟨raise_sets_cb, rfl, rfl, by decide, by decide⟩

/-- Witness for C10 at the concrete under-funded raise. -/
theorem c10_underfunded_raise_witness :
    (raiseShort.map Prod.fst |>.getD initialGame).currentBet
      = ((raiseShort.map Prod.fst |>.getD initialGame).players.getD
          (raiseSetup.getD initialGame).activePlayerIndex emptyPlayer).currentBet :=
  c10_underfunded_raise.1 (raiseSetup.getD initialGame)
    (raiseShort.map Prod.fst |>.getD initialGame) (some 300) rfl

/-- C5 (counterexample): the CHECK submitted by the UTG seat right after the
hand starts is rejected (returns false), yet `isFirstAction` — true before the
call — has been cleared: the flag is flipped before the per-action validation
runs, so this rejection mutates the engine state. -/
theorem c5_first_action_flag_counterexample :
    rejectedCheck.map (fun r => (r.2, r.1.isFirstAction)) = some (false, false)
    ∧ afterStart.isFirstAction = true := by
  exact ⟨rfl, rfl⟩

/-- C5 (amended): whenever `processAction` returns false the state is
unchanged except for `isFirstAction`: a rejection on a non-actionable seat
changes nothing, and a validation rejection (illegal check/call/bet/raise)
leaves every component unchanged except that it may clear `isFirstAction`. -/
theorem c5_rejection_atomicity (g g' : PokerGame) (a : PlayerAction) (amt : Option Int)
    (h : processAction g a amt = some (g', false)) :
    g' = g ∨ g' = { g with isFirstAction := false } := by
  simp only [processAction] at h
  split at h
  · cases h
    left
    rfl
  next hcan =>
    generalize hG : (if g.isFirstAction = true then { g with isFirstAction := false } else g)
      = G at h
    have hGor : G = g ∨ G = { g with isFirstAction := false } := by
      rw [← hG]
      cases hfa : g.isFirstAction
      · left
        simp [hfa]
      · right
        simp [hfa]
    split at h
    case h_1 => exact absurd h (fun hh => finishAction_not_false _ _ _ _ _ hh)
    case h_2 =>
      split at h
      next =>
        cases h
        exact hGor
      next => exact absurd h (fun hh => finishAction_not_false _ _ _ _ _ hh)
    case h_3 =>
      split at h
      next =>
        cases h
        exact hGor
      next => exact absurd h (fun hh => finishAction_not_false _ _ _ _ _ hh)
    case h_4 =>
      split at h
      next =>
        cases h
        exact hGor
      next =>
        split at h
        next =>
          cases h
          exact hGor
        next =>
          split at h
          next =>
            cases h
            exact hGor
          next => exact absurd h (fun hh => finishAction_not_false _ _ _ _ _ hh)
    case h_5 =>
      split at h
      next =>
        cases h
        exact hGor
      next =>
        split at h
        next =>
          cases h
          exact hGor
        next =>
          split at h
          next =>
            cases h
            exact hGor
          next => exact absurd h (fun hh => finishAction_not_false _ _ _ _ _ hh)
    case h_6 => exact absurd h (fun hh => finishAction_not_false _ _ _ _ _ hh)

/-- Witness for C5 at the concrete rejected CHECK. -/
theorem c5_rejection_atomicity_witness :
    (rejectedCheck.map Prod.fst |>.getD initialGame) = afterStart
    ∨ (rejectedCheck.map Prod.fst |>.getD initialGame)
        = { afterStart with isFirstAction := false } :=
  c5_rejection_atomicity afterStart (rejectedCheck.map Prod.fst |>.getD initialGame)
    .check none rfl

/-- C7: whenever settlement runs with two or more non-folded seats, the ENTIRE
pot goes to the FIRST non-folded seat and every other seat is untouched — the
statement quantifies over all states, so the hole and community cards are
never consulted: there is no hand ranking and no split (the `HandEvaluator`
of the frontend is random and is never called by the engine). -/
theorem c7_first_nonfolded_takes_all (g g' : PokerGame)
    (hcnt : 2 ≤ nonFoldedCount g)
    (h : processHandCompletion g = some g') :
    ∃ w, firstIdxWhere (fun p => !p.hasFolded) g.players = some w
      ∧ (g'.players.getD w emptyPlayer).stack = (g.players.getD w emptyPlayer).stack + g.pot
      ∧ (∀ i, i ≠ w → g'.players.getD i emptyPlayer = g.players.getD i emptyPlayer)
      ∧ g'.phase = .finished
      ∧ g'.pot = g.pot := by
  unfold processHandCompletion at h
  split at h
  next => cases h
  next w hw =>
    cases h
    have hlt := firstIdxWhere_lt _ _ _ hw
    refine ⟨w, hw, ?_, ?_, rfl, rfl⟩
    · show ((g.players.set w _).getD w emptyPlayer).stack = _
      rw [getD_set_self _ _ _ _ hlt]
    · intro i hi
      show (g.players.set w _).getD i emptyPlayer = _
      rw [getD_set_ne _ _ _ _ _ (fun he => hi he.symm)]

/-- Witness for C7: settling the just-started hand (six non-folded seats)
hands the whole 60-chip pot to seat 0. -/
theorem c7_first_nonfolded_takes_all_witness :
    (((processHandCompletion afterStart).getD initialGame).players.getD 0 emptyPlayer).stack
      = (afterStart.players.getD 0 emptyPlayer).stack + afterStart.pot := by
  obtain ⟨w, hw, hs, _, _, _⟩ :=
    c7_first_nonfolded_takes_all afterStart ((processHandCompletion afterStart).getD initialGame)
      (by decide) rfl
  have hw0 : w = 0 := by
    have h0 : (some 0 : Option Nat) = some w := by
      rw [← hw]
      rfl
    exact (Option.some.inj h0).symm
  subst hw0
  exact hs

/-- C3 (amended): membership in `getValidActions` — FOLD always (when the seat
can act and the phase is live); CHECK iff nothing to call; BET iff nothing to
call and the stack covers the big blind; CALL iff there is an amount to call
AND the stack covers it; RAISE iff there is an amount to call, the stack
strictly exceeds it, and the stack covers the big blind; ALL_IN iff the stack
is positive; and the list is empty exactly when the active seat cannot act or
the phase is SETUP or FINISHED. -/
theorem c3_valid_actions (g : PokerGame) :
    (∀ a : PlayerAction, a ∈ getValidActions g ↔
      ((g.players.getD g.activePlayerIndex emptyPlayer).canAct = true
        ∧ g.phase ≠ .finished ∧ g.phase ≠ .setup
        ∧ (match a with
          | .fold => True
          | .check => g.currentBet - (g.players.getD g.activePlayerIndex emptyPlayer).currentBet
              = 0
          | .bet => g.currentBet - (g.players.getD g.activePlayerIndex emptyPlayer).currentBet
                = 0
              ∧ BIG_BLIND ≤ (g.players.getD g.activePlayerIndex emptyPlayer).stack
          | .call => g.currentBet - (g.players.getD g.activePlayerIndex emptyPlayer).currentBet
                ≠ 0
              ∧ g.currentBet - (g.players.getD g.activePlayerIndex emptyPlayer).currentBet
                ≤ (g.players.getD g.activePlayerIndex emptyPlayer).stack
          | .raise => g.currentBet - (g.players.getD g.activePlayerIndex emptyPlayer).currentBet
                ≠ 0
              ∧ g.currentBet - (g.players.getD g.activePlayerIndex emptyPlayer).currentBet
                < (g.players.getD g.activePlayerIndex emptyPlayer).stack
              ∧ BIG_BLIND ≤ (g.players.getD g.activePlayerIndex emptyPlayer).stack
          | .all_in => 0 < (g.players.getD g.activePlayerIndex emptyPlayer).stack)))
    ∧ (getValidActions g = [] ↔
      ¬((g.players.getD g.activePlayerIndex emptyPlayer).canAct = true
        ∧ g.phase ≠ .finished ∧ g.phase ≠ .setup)) := by
  simp only [getValidActions]
  split
  next hcond =>
    have hneg : ¬((g.players.getD g.activePlayerIndex emptyPlayer).canAct = true
        ∧ g.phase ≠ .finished ∧ g.phase ≠ .setup) := by
      rintro ⟨h1, h2, h3⟩
      rw [List.getD_eq_getElem?_getD] at h1
      simp [h1, h2, h3] at hcond
    constructor
    · intro a
      simp only [List.not_mem_nil, false_iff]
      rintro ⟨h1, h2, h3, -⟩
      exact hneg ⟨h1, h2, h3⟩
    · simpa using hneg
  next hcond =>
    have h1 : (g.players.getD g.activePlayerIndex emptyPlayer).canAct = true := by
      by_contra hx
      apply hcond
      have h4 : (g.players.getD g.activePlayerIndex emptyPlayer).canAct = false := by
        revert hx
        cases (g.players.getD g.activePlayerIndex emptyPlayer).canAct <;> simp
      rw [List.getD_eq_getElem?_getD] at h4
      simp [h4]
    have h2 : g.phase ≠ GamePhase.finished := by
      intro hx
      exact hcond (by simp [hx])
    have h3 : g.phase ≠ GamePhase.setup := by
      intro hx
      exact hcond (by simp [hx])
    constructor
    · intro a
      generalize (g.players.getD g.activePlayerIndex emptyPlayer).stack = st
      generalize g.currentBet - (g.players.getD g.activePlayerIndex emptyPlayer).currentBet = atc
      cases a <;>
        simp only [List.mem_append, List.mem_cons, List.mem_singleton, List.not_mem_nil,
          h1, h2, h3, ne_eq, not_false_eq_true, true_and] <;>
        split_ifs <;>
        simp_all
    · constructor
      · intro hx
        exact absurd hx (List.cons_ne_nil _ _)
      · intro hx
        exact absurd ⟨h1, h2, h3⟩ hx

theorem find_funded_isSome (players : List Player) (fromIdx : Nat)
    (hlen : players.length = 6) :
    (findNextPlayerWithChips players fromIdx).isSome = true
      ↔ ∃ p ∈ players, p.stack ≠ 0 := by
  simp only [findNextPlayerWithChips, hlen]
  split
  next k heq =>
    simp only [Option.isSome_some, true_iff]
    have hpk := List.find?_some heq
    simp only [Bool.not_eq_true', decide_eq_false_iff_not] at hpk
    have hlt : ((fromIdx + 1) % 6 + k) % 6 < players.length := by
      rw [hlen]; omega
    exact ⟨_, getD_mem players _ emptyPlayer hlt, hpk⟩
  next x heq =>
    simp only [Option.isSome_none, Bool.false_eq_true, false_iff]
    rintro ⟨p, hp, hps⟩
    obtain ⟨i, hi, hpe⟩ := List.mem_iff_getElem.mp hp
    have hi6 : i < 6 := by omega
    have hk : (i + 6 - (fromIdx + 1) % 6) % 6 ∈ List.range 6 := by
      simp only [List.mem_range]
      omega
    have := List.find?_eq_none.mp heq _ hk
    simp only [Bool.not_eq_true', decide_eq_false_iff_not, not_not] at this
    have hidx : ((fromIdx + 1) % 6 + (i + 6 - (fromIdx + 1) % 6) % 6) % 6 = i := by
      omega
    rw [hidx] at this
    rw [List.getD_eq_getElem players emptyPlayer hi, hpe] at this
    exact hps this

theorem exists_funded_map_reset (l : List Player) :
    (∃ p ∈ l.map Player.reset, p.stack ≠ 0) ↔ ∃ p ∈ l, p.stack ≠ 0 := by
  simp only [List.mem_map]
  constructor
  · rintro ⟨p, ⟨q, hq, rfl⟩, hs⟩
    exact ⟨q, hq, hs⟩
  · rintro ⟨q, hq, hs⟩
    exact ⟨Player.reset q, ⟨q, hq, rfl⟩, hs⟩

theorem resetForNewHand_isSome_iff (g : PokerGame) (sd : List Card)
    (hlen : g.players.length = 6) :
    (resetForNewHand g sd).isSome = true ↔ ∃ p ∈ g.players, p.stack ≠ 0 := by
  have hlen' : (g.players.map Player.reset).length = 6 := by simpa using hlen
  simp only [resetForNewHand]
  constructor
  · intro h
    cases hf : findNextPlayerWithChips (g.players.map Player.reset) g.dealerIndex with
    | none => rw [hf] at h; simp at h
    | some d =>
      exact (exists_funded_map_reset _).mp
        ((find_funded_isSome _ g.dealerIndex hlen').mp (by rw [hf]; rfl))
  · intro hfund
    have hfund' := (exists_funded_map_reset g.players).mpr hfund
    obtain ⟨d, hd⟩ := Option.isSome_iff_exists.mp
      ((find_funded_isSome _ g.dealerIndex hlen').mpr hfund')
    obtain ⟨sb, hsb⟩ := Option.isSome_iff_exists.mp
      ((find_funded_isSome _ d hlen').mpr hfund')
    obtain ⟨bb, hbb⟩ := Option.isSome_iff_exists.mp
      ((find_funded_isSome _ sb hlen').mpr hfund')
    simp only [hd, hsb, hbb, Option.isSome_some]

theorem resetForNewHand_deck (g : PokerGame) (sd : List Card) (g1 : PokerGame)
    (h : resetForNewHand g sd = some g1) : g1.deck = sd := by
  simp only [resetForNewHand] at h
  split at h
  · cases h
  · split at h
    · cases h
    · split at h
      · cases h
      · cases h; rfl

theorem postBlinds_deck (g : PokerGame) : (postBlinds g).deck = g.deck := rfl

theorem startNewHand_isSome_iff (g : PokerGame) (sd : List Card)
    (hlen : g.players.length = 6) (hdeck : 12 ≤ sd.length) :
    (startNewHand g sd).isSome = true ↔ ∃ p ∈ g.players, p.stack ≠ 0 := by
  simp only [startNewHand]
  constructor
  · intro h
    cases hr : resetForNewHand g sd with
    | none => rw [hr] at h; simp at h
    | some g1 =>
      exact (resetForNewHand_isSome_iff g sd hlen).mp (by rw [hr]; rfl)
  · intro hfund
    obtain ⟨g1, hg1⟩ := Option.isSome_iff_exists.mp
      ((resetForNewHand_isSome_iff g sd hlen).mpr hfund)
    simp only [hg1]
    have hds : (dealHoleCards (postBlinds g1)).isSome = true := by
      unfold dealHoleCards
      apply dealHoleCardsAux_isSome
      rw [postBlinds_deck, resetForNewHand_deck g sd g1 hg1]
      have h12 : ((List.range 2).bind fun _ => List.range 6).length = 12 := by decide
      omega
    obtain ⟨g2, hg2⟩ := Option.isSome_iff_exists.mp hds
    simp only [hg2, Option.isSome_some]

/-- C4 (amended): `startNewHand` fails with the NoFundedSeats error iff NO seat
has a nonzero stack; with even a single funded seat (and a full deck) the hand
starts — the spec's fewer-than-two threshold is not what the code checks. -/
theorem c4_no_funded_seats (g : PokerGame) (sd : List Card)
    (hlen : g.players.length = 6) (hdeck : 12 ≤ sd.length) :
    startNewHand g sd = none ↔ ∀ p ∈ g.players, p.stack = 0 := by
  have h := startNewHand_isSome_iff g sd hlen hdeck
  constructor
  · intro hn p hp
    by_contra hps
    have h2 := h.mpr ⟨p, hp, hps⟩
    rw [hn] at h2
    cases h2
  · intro hall
    cases hs : startNewHand g sd with
    | none => rfl
    | some g1 =>
      obtain ⟨p, hp, hps⟩ := h.mp (by rw [hs]; rfl)
      exact absurd (hall p hp) hps

/-- C4 witness: a table where every seat is broke indeed fails to start. -/
theorem c4_no_funded_seats_witness :
    startNewHand brokeGame freshDeck = none :=
  (c4_no_funded_seats brokeGame freshDeck (by decide) (by decide)).mpr (by decide)

/-- C4 counterexample: with exactly ONE funded seat (fewer than 2),
`startNewHand` succeeds — no NoFundedSeats error is raised. -/
theorem c4_one_funded_counterexample :
    oneFundedStart.isSome = true
    ∧ ((((setPlayerStacks initialGame [1000, 0, 0, 0, 0, 0]).getD
          initialGame).players.filter (fun p => !(p.stack = 0 : Bool))).length = 1) := by
  decide

theorem findNextActivePlayer_idx (g : PokerGame) (k : Nat)
    (hfind : (List.range 6).find?
      (fun j => (g.players.getD ((g.activePlayerIndex + j) % 6) emptyPlayer).canAct)
      = some k) :
    (findNextActivePlayer g).activePlayerIndex = (g.activePlayerIndex + k) % 6 := by
  unfold findNextActivePlayer
  rw [hfind]

theorem setActivePlayer_idx_preflop (g : PokerGame) (k : Nat)
    (hp : g.phase = .preflop)
    (hfind : (List.range 6).find?
      (fun j => (g.players.getD (((g.bigBlindIndex + 1) % 6 + j) % 6) emptyPlayer).canAct)
      = some k) :
    (setActivePlayer g).activePlayerIndex = ((g.bigBlindIndex + 1) % 6 + k) % 6 := by
  have hg : setActivePlayer g
      = findNextActivePlayer { g with activePlayerIndex := (g.bigBlindIndex + 1) % 6 } := by
    simp only [setActivePlayer, hp]
    simp
  rw [hg]
  exact findNextActivePlayer_idx _ k hfind

theorem startNewHand_1000 (sd : List Card) (hdeck : 12 ≤ sd.length) :
    ∃ G, startNewHand configuredOnly sd = some G
      ∧ G.pot = 60 ∧ G.currentBet = 40 ∧ G.dealerIndex = 1
      ∧ G.smallBlindIndex = 2 ∧ G.bigBlindIndex = 3 ∧ G.activePlayerIndex = 4 := by
  have h1 : resetForNewHand configuredOnly sd = some (resetDone sd) := rfl
  have h2 : postBlinds (resetDone sd) = blindsPosted sd := rfl
  have hds : (dealHoleCards (blindsPosted sd)).isSome = true := by
    unfold dealHoleCards
    apply dealHoleCardsAux_isSome
    have h12 : ((List.range 2).bind fun _ => List.range 6).length = 12 := by decide
    have hbd : (blindsPosted sd).deck = sd := rfl
    rw [hbd]
    omega
  obtain ⟨g2, hg2⟩ := Option.isSome_iff_exists.mp hds
  obtain ⟨dk, pl, he, hchips⟩ := dealHoleCardsAux_shape _ _ _ (by
    simpa only [dealHoleCards] using hg2)
  subst he
  simp only [startNewHand, h1, h2, hg2]
  refine ⟨_, rfl, ?_, ?_, ?_, ?_, ?_, ?_⟩
  · show (setActivePlayer _).pot = 60
    rw [setActivePlayer_pot]
    rfl
  · show (setActivePlayer _).currentBet = 40
    rw [setActivePlayer_currentBet]
    rfl
  · show (setActivePlayer _).dealerIndex = 1
    obtain ⟨i, hi⟩ := setActivePlayer_shape _
    rw [hi]
    rfl
  · show (setActivePlayer _).smallBlindIndex = 2
    obtain ⟨i, hi⟩ := setActivePlayer_shape _
    rw [hi]
    rfl
  · show (setActivePlayer _).bigBlindIndex = 3
    obtain ⟨i, hi⟩ := setActivePlayer_shape _
    rw [hi]
    rfl
  · have hact4 : (pl.getD 4 emptyPlayer).canAct = true := by
      rw [getD_canAct_of_chips 4 hchips]
      rfl
    have hfind : (List.range 6).find?
        (fun j => (pl.getD ((4 + j) % 6) emptyPlayer).canAct) = some 0 :=
      List.find?_cons_of_pos _ (by simpa using hact4)
    show (setActivePlayer _).activePlayerIndex = 4
    rw [setActivePlayer_idx_preflop _ 0 rfl hfind]
    rfl

/-- C8 (amended): for six seats of 1000 chips, immediately after `startNewHand`
the pot is 60, `currentBet` is 40, and the active seat sits THREE positions
left of the dealer (one past the big blind), never two positions left. -/
theorem c8_opening_state (sd : List Card) (hdeck : 12 ≤ sd.length) :
    ∃ G, ((setPlayerStacks initialGame (List.replicate 6 1000)).bind fun g =>
            startNewHand g sd) = some G
      ∧ G.pot = 60 ∧ G.currentBet = 40
      ∧ G.activePlayerIndex = (G.dealerIndex + 3) % 6
      ∧ G.activePlayerIndex ≠ (G.dealerIndex + 2) % 6 := by
  obtain ⟨G, hG, hpot, hcb, hd, hsb2, hbb, ha⟩ := startNewHand_1000 sd hdeck
  refine ⟨G, ?_, hpot, hcb, ?_, ?_⟩
  · exact hG
  · rw [ha, hd]
  · rw [ha, hd]
    decide

/-- C8 witness: the scenario run with the generation-order deck. -/
theorem c8_opening_state_witness :
    ∃ G, ((setPlayerStacks initialGame (List.replicate 6 1000)).bind fun g =>
            startNewHand g freshDeck) = some G
      ∧ G.pot = 60 ∧ G.currentBet = 40
      ∧ G.activePlayerIndex = (G.dealerIndex + 3) % 6
      ∧ G.activePlayerIndex ≠ (G.dealerIndex + 2) % 6 :=
  c8_opening_state freshDeck (by decide)

/-- C8 counterexample: in the started 6x1000 hand the dealer is seat 1 and the
active seat is seat 4 — not seat (1+2)%6 = 3 as the spec's "two positions left
of the dealer" would demand. -/
theorem c8_utg_counterexample :
    hand1000.map (fun g => (g.dealerIndex, g.activePlayerIndex)) = some (1, 4)
    ∧ ((1 + 2) % 6 : Nat) ≠ 4 := by decide

/-- C3 counterexample: at the started short-stack table the active seat owes 40
holding only 10, so the amount to call is positive, yet CALL is not offered
(nor RAISE) — the returned list is just FOLD and ALL_IN. -/
theorem c3_call_counterexample :
    0 < (shortStackHand.getD initialGame).currentBet
        - ((shortStackHand.getD initialGame).players.getD
            (shortStackHand.getD initialGame).activePlayerIndex emptyPlayer).currentBet
    ∧ getValidActions (shortStackHand.getD initialGame)
        = [PlayerAction.fold, PlayerAction.all_in] := by
  decide
